import Mathlib

/-!
Verification development for the BetterChordStacks chord-transition engine
(src/PluginProcessor.h / src/PluginProcessor.cpp).

The C++ core is embedded shallowly:
- machine integers (`int`, `int64_t`) become `Int` (no claim depends on
  overflow; all engine quantities stay far below 2^31);
- `float` arithmetic is idealised as `ℚ`;
- the mutable engine object becomes an explicit `EngineState` record,
  each member function a state-passing Lean function;
- `std::optional` becomes `Option`, the JUCE MIDI buffers become lists.
-/

set_option maxRecDepth 10000

/-! ## Scenario definitions used by the claim theorems -/

/-- juce::jlimit on integers: clamp `v` into `[lo, hi]`. -/
def jlimit (lo hi v : Int) : Int :=
  if v < lo then lo else if hi < v then hi else v

/-- juce::jlimit on rationals (modelling the float overload). -/
def jlimitQ (lo hi v : ℚ) : ℚ :=
  if v < lo then lo else if hi < v then hi else v

/-- The C++ cast `static_cast<int>` applied to a float value: truncation toward zero. -/
def truncQ (q : ℚ) : Int :=
  if q < 0 then -⌊-q⌋ else ⌊q⌋

/-- struct Note (PluginProcessor.h): pitch, velocity, timestamp; ordered by pitch. -/
structure Note where
  pitch : Int
  velocity : Int
  timestamp : Int
deriving Repr, DecidableEq

/-- The order used by `std::sort` on notes: `operator<` compares pitch.
`std::sort` leaves the relative order of equal pitches unspecified; we fix the
stable (insertion-sort) outcome, one of the permitted results. -/
def notePitchLe (a b : Note) : Prop := a.pitch ≤ b.pitch

instance : DecidableRel notePitchLe := fun a b => Int.decLe a.pitch b.pitch

instance : IsTotal Note notePitchLe := ⟨fun a b => Int.le_total a.pitch b.pitch⟩

instance : IsTrans Note notePitchLe := ⟨fun _ _ _ => Int.le_trans⟩

/-- class Chord: a note list plus a timestamp. -/
structure Chord where
  notes : List Note
  timestamp : Int
deriving Repr, DecidableEq

/-- Chord::Chord(notes, ts): stores the notes and sorts them by pitch. -/
def Chord.ofList (notes : List Note) (ts : Int) : Chord :=
  ⟨List.insertionSort notePitchLe notes, ts⟩

/-- Chord::addNote: append and re-sort unless a note with that pitch exists. -/
def Chord.addNote (c : Chord) (note : Note) : Chord :=
  if c.notes.any (fun n => n.pitch == note.pitch) then c
  else ⟨List.insertionSort notePitchLe (c.notes ++ [note]), c.timestamp⟩

/-- Chord::removeNote: erase every note with the given pitch. -/
def Chord.removeNote (c : Chord) (pitch : Int) : Chord :=
  ⟨c.notes.filter (fun n => !(n.pitch == pitch)), c.timestamp⟩

/-- Chord::containsNote. -/
def Chord.containsNote (c : Chord) (pitch : Int) : Bool :=
  c.notes.any (fun n => n.pitch == pitch)

/-- Chord::getPitches. -/
def Chord.getPitches (c : Chord) : List Int :=
  c.notes.map Note.pitch

/-- Chord::isEmpty. -/
def Chord.isEmpty (c : Chord) : Bool :=
  c.notes.isEmpty

/-- The inner minimum-distance scan shared by both passes of
NearestNoteMapping::map: running over the remaining candidates with the index
of the next candidate, the best index so far and its distance, updating on a
strict improvement (`dist < minDist`). -/
def nearestIdxAux (x : Int) : List Int → Nat → Nat → Nat → Nat
  | [], _, best, _ => best
  | t :: rest, j, best, bestDist =>
    let d := (x - t).natAbs
    if d < bestDist then nearestIdxAux x rest (j + 1) j d
    else nearestIdxAux x rest (j + 1) best bestDist

/-- Index of the first candidate at minimal absolute distance from `x`
(the loop starting from index 0 in NearestNoteMapping::map). -/
def nearestIdx (x : Int) : List Int → Nat
  | [] => 0
  | t :: rest => nearestIdxAux x rest 1 0 ((x - t).natAbs)

/-- In-place update of the element at an index (used for `mapping[i].second.push_back`). -/
def modifyIdx {α : Type} (f : α → α) : Nat → List α → List α
  | _, [] => []
  | 0, a :: l => f a :: l
  | n + 1, a :: l => a :: modifyIdx f n l

/-- First pass of NearestNoteMapping::map: each source note is paired with its
nearest target. -/
def nearestFirstPass (source target : List Int) : List (Int × List Int) :=
  source.map (fun s => (s, [target.getD (nearestIdx s target) 0]))

/-- The indices recorded in `targetUsed` after the first pass. -/
def nearestUsed (source target : List Int) : List Nat :=
  source.map (fun s => nearestIdx s target)

/-- Second pass of NearestNoteMapping::map: every target index not marked used
is appended, in input order, to the entry of the source nearest to it. -/
def nearestSecondPass (source target : List Int) : List (Int × List Int) :=
  (target.enum.filter (fun p => !((nearestUsed source target).contains p.1))).foldl
    (fun m p => modifyIdx (fun e => (e.1, e.2 ++ [p.2])) (nearestIdx p.2 source) m)
    (nearestFirstPass source target)

/-- NearestNoteMapping::map (PluginProcessor.cpp lines 62-119). -/
def NearestNoteMapping.map (source target : List Int) : List (Int × List Int) :=
  if source.isEmpty || target.isEmpty then []
  else nearestSecondPass source target

/-- First loop of RandomMapping::map. `rng k` models the `k`-th draw of the
mersenne twister; `uniform_int_distribution(0, n-1)` is modelled by taking the
draw modulo `n`; quantifying over all `rng` covers every possible RNG run. -/
def randFirst (rng : Nat → Nat) :
    List Int → List Int → Nat → List (Int × List Int) × List Int × Nat
  | [], remaining, k => ([], remaining, k)
  | s :: rest, remaining, k =>
    if remaining.isEmpty then
      let r := randFirst rng rest remaining k
      ((s, []) :: r.1, r.2)
    else
      let idx := rng k % remaining.length
      let t := remaining.getD idx 0
      let r := randFirst rng rest (remaining.eraseIdx idx) (k + 1)
      ((s, [t]) :: r.1, r.2)

/-- Second loop of RandomMapping::map, already oriented head-first: the C++
code pops `remainingTargets.back()`, so the caller passes the reversed
remainder.  Each element is appended to a uniformly random mapping entry. -/
def randDistribute (rng : Nat → Nat) :
    List Int → List (Int × List Int) → Nat → List (Int × List Int)
  | [], m, _ => m
  | t :: rest, m, k =>
    randDistribute rng rest
      (modifyIdx (fun e => (e.1, e.2 ++ [t])) (rng k % m.length) m) (k + 1)

/-- RandomMapping::map (PluginProcessor.cpp lines 124-159). -/
def RandomMapping.map (rng : Nat → Nat) (source target : List Int) :
    List (Int × List Int) :=
  if source.isEmpty || target.isEmpty then []
  else
    let r := randFirst rng source target 0
    randDistribute rng r.2.1.reverse r.1 r.2.2

/-- All targets assigned by a mapping, in entry order. -/
def allTargets (m : List (Int × List Int)) : List Int :=
  (m.map Prod.snd).flatten

/-- MPEVoiceAllocator::allocate, inner scan over `channelUsed_`: find the first
`false` slot, set it, and report its index. -/
def allocateAux : List Bool → Option (Nat × List Bool)
  | [] => none
  | b :: rest =>
    if b then
      match allocateAux rest with
      | none => none
      | some (j, rest') => some (j + 1, b :: rest')
    else some (0, true :: rest)

/-- MPEVoiceAllocator::allocate: lowest free channel in [2,16], or none. -/
def MPEVoiceAllocator.allocate (used : List Bool) : Option (Int × List Bool) :=
  match allocateAux used with
  | none => none
  | some (i, used') => some (2 + (i : Int), used')

/-- MPEVoiceAllocator::release: free the slot if the channel is in [2,16]. -/
def MPEVoiceAllocator.release (channel : Int) (used : List Bool) : List Bool :=
  if 2 ≤ channel ∧ channel ≤ 16 then used.set (channel - 2).toNat false else used

/-- MPEVoiceAllocator::reset: all 15 slots free. -/
def MPEVoiceAllocator.reset : List Bool :=
  List.replicate 15 false

/-- class GlidingVoice: per-voice glide state. -/
structure GlidingVoice where
  channel : Int
  startPitch : Int
  currentPitch : Int
  targetPitch : Int
  currentPitchBend : ℚ
  glideStartTime : Int
  lastPitchBendTime : Int
  glideDurationSamples : Int
  isGliding : Bool
deriving Repr, DecidableEq

/-- GlidingVoice constructor: currentPitch starts at startPitch, bend at 0,
isGliding true. -/
def GlidingVoice.create (channel startPitch targetPitch : Int)
    (startTime durationSamples : Int) : GlidingVoice :=
  ⟨channel, startPitch, startPitch, targetPitch, 0, startTime, 0, durationSamples, true⟩

/-- GlidingVoice::updateGlide (PluginProcessor.cpp lines 210-232). -/
def GlidingVoice.updateGlide (v : GlidingVoice) (currentTime : Int) : GlidingVoice :=
  if !v.isGliding then v
  else
    let elapsed := currentTime - v.glideStartTime
    if elapsed ≥ v.glideDurationSamples then
      { v with currentPitchBend := 0, currentPitch := v.targetPitch, isGliding := false }
    else
      let progress : ℚ :=
        if v.glideDurationSamples > 0 then
          (elapsed : ℚ) / (v.glideDurationSamples : ℚ)
        else 1
      { v with currentPitchBend := ((v.targetPitch - v.startPitch : Int) : ℚ) * progress }

/-- GlidingVoice::hasReachedTarget. -/
def GlidingVoice.hasReachedTarget (v : GlidingVoice) : Bool :=
  !v.isGliding && v.currentPitch == v.targetPitch

/-- juce::MidiMessage, restricted to the message kinds the engine inspects or
produces; `other` stands for every remaining MIDI message kind (control
change, channel pressure, program change, incoming pitch bend, ...). -/
inductive MidiMsg where
  | noteOn (channel pitch velocity : Int)
  | noteOff (channel pitch : Int)
  | pitchWheel (channel value : Int)
  | other
deriving Repr, DecidableEq

/-- juce::MidiMessage::isNoteOn (engine input carries velocity > 0 note-ons). -/
def MidiMsg.isNoteOn : MidiMsg → Bool
  | .noteOn _ _ _ => true
  | _ => false

/-- juce::MidiMessage::isNoteOff. -/
def MidiMsg.isNoteOff : MidiMsg → Bool
  | .noteOff _ _ => true
  | _ => false

/-- juce::MidiMessage::isPitchWheel. -/
def MidiMsg.isPitchWheel : MidiMsg → Bool
  | .pitchWheel _ _ => true
  | _ => false

/-- juce::MidiMessage::getNoteNumber. -/
def MidiMsg.getNoteNumber : MidiMsg → Int
  | .noteOn _ p _ => p
  | .noteOff _ p => p
  | _ => 0

/-- juce::MidiMessage::getVelocity. -/
def MidiMsg.getVelocity : MidiMsg → Int
  | .noteOn _ _ v => v
  | _ => 0

/-- One entry of the block's incoming juce::MidiBuffer: a message with its
block-local sample position. -/
structure InputEvent where
  message : MidiMsg
  samplePosition : Int
deriving Repr, DecidableEq

/-- struct BufferedMidiEvent: a message stamped with its global sample time. -/
structure BufferedMidiEvent where
  message : MidiMsg
  globalTimestamp : Int
deriving Repr, DecidableEq

/-- One entry of the output juce::MidiBuffer: a message at a block offset. -/
structure OutputEvent where
  message : MidiMsg
  sample : Int
deriving Repr, DecidableEq

/-- The private state of ChordTransitionEngine (PluginProcessor.h lines 213-223).
`sampleRate_` is omitted: no engine computation reads it. -/
structure EngineState where
  allocator : List Bool
  activeVoices : List GlidingVoice
  midiBuffer : List BufferedMidiEvent
  currentChord : Option Chord
  pendingChord : Option Chord
  lookaheadSamples : Int
  currentGlobalTime : Int
  pitchBendRange : ℚ
deriving Repr, DecidableEq

/-- Replace only the buffered-event queue of an engine state. -/
def EngineState.withBuffer (st : EngineState) (b : List BufferedMidiEvent) : EngineState :=
  { st with midiBuffer := b }

/-- ChordTransitionEngine state after prepare/reset with a given lookahead. -/
def ChordTransitionEngine.initial (lookaheadSamples : Int) : EngineState :=
  ⟨MPEVoiceAllocator.reset, [], [], none, none, lookaheadSamples, 0, 12⟩

/-- ChordTransitionEngine::sendMidiNoteOn: append a note-on to the output. -/
def sendMidiNoteOn (output : List OutputEvent)
    (channel pitch velocity sample : Int) : List OutputEvent :=
  output ++ [⟨MidiMsg.noteOn channel pitch velocity, sample⟩]

/-- ChordTransitionEngine::sendMidiNoteOff. -/
def sendMidiNoteOff (output : List OutputEvent)
    (channel pitch sample : Int) : List OutputEvent :=
  output ++ [⟨MidiMsg.noteOff channel pitch, sample⟩]

/-- The 14-bit value computed inside ChordTransitionEngine::sendMidiPitchBend
(PluginProcessor.cpp lines 520-528). -/
def sendMidiPitchBendValue (pitchBendRange semitones : ℚ) : Int :=
  jlimit 0 16383 (truncQ (jlimitQ (-1) 1 (semitones / pitchBendRange) * 8192 + 8192))

/-- ChordTransitionEngine::sendMidiPitchBend. -/
def sendMidiPitchBend (output : List OutputEvent) (pitchBendRange : ℚ)
    (channel : Int) (semitones : ℚ) (sample : Int) : List OutputEvent :=
  output ++ [⟨MidiMsg.pitchWheel channel (sendMidiPitchBendValue pitchBendRange semitones), sample⟩]

/-- The per-voice loop body of ChordTransitionEngine::handleNoteOff: emit a
note-off and release the channel for every voice whose start or current pitch
matches, in voice order. -/
def stopMatchingVoices (pitch : Int) :
    List GlidingVoice → List Bool → List OutputEvent → Int → List Bool × List OutputEvent
  | [], alloc, output, _ => (alloc, output)
  | v :: rest, alloc, output, localSample =>
    if v.startPitch == pitch || v.currentPitch == pitch then
      stopMatchingVoices pitch rest (MPEVoiceAllocator.release v.channel alloc)
        (sendMidiNoteOff output v.channel v.currentPitch localSample) localSample
    else
      stopMatchingVoices pitch rest alloc output localSample

/-- ChordTransitionEngine::handleNoteOff (PluginProcessor.cpp lines 469-504). -/
def ChordTransitionEngine.handleNoteOff (st : EngineState) (output : List OutputEvent)
    (pitch localSample : Int) : EngineState × List OutputEvent :=
  match st.currentChord with
  | none => (st, output)
  | some c =>
    let c' := c.removeNote pitch
    let r := stopMatchingVoices pitch st.activeVoices st.allocator output localSample
    let voices' := st.activeVoices.filter
      (fun v => !(v.startPitch == pitch || v.currentPitch == pitch))
    if c'.isEmpty then
      ({ st with currentChord := none, pendingChord := none, activeVoices := [],
                 allocator := r.1 }, r.2)
    else
      ({ st with currentChord := some c', activeVoices := voices',
                 allocator := r.1 }, r.2)

/-- The allocation loop of ChordTransitionEngine::detectChordChange's
first-chord branch: one zero-duration voice per note, skipped when the
allocator is exhausted. -/
def allocateVoicesForChord :
    List Note → List Bool → List GlidingVoice → List Bool × List GlidingVoice
  | [], alloc, voices => (alloc, voices)
  | n :: rest, alloc, voices =>
    match MPEVoiceAllocator.allocate alloc with
    | none => allocateVoicesForChord rest alloc voices
    | some (ch, alloc') =>
      allocateVoicesForChord rest alloc'
        (voices ++ [GlidingVoice.create ch n.pitch n.pitch n.timestamp 0])

/-- ChordTransitionEngine::detectChordChange (PluginProcessor.cpp lines 370-397). -/
def ChordTransitionEngine.detectChordChange (st : EngineState)
    (simultaneousNotes : List Note) : EngineState :=
  match simultaneousNotes with
  | [] => st
  | n0 :: _ =>
    let newChord := Chord.ofList simultaneousNotes n0.timestamp
    match st.currentChord with
    | none =>
      let r := allocateVoicesForChord newChord.notes st.allocator st.activeVoices
      { st with currentChord := some newChord, allocator := r.1, activeVoices := r.2 }
    | some _ => { st with pendingChord := some newChord }

/-- The flattened (source, target) pairs of a mapping, in the nesting order of
the two loops in ChordTransitionEngine::startTransition. -/
def transitionPairs (mapping : List (Int × List Int)) : List (Int × Int) :=
  (mapping.map (fun e => e.2.map (fun t => (e.1, t)))).flatten

/-- The voice-creation loop of ChordTransitionEngine::startTransition. -/
def allocateGlidingVoices (startTime duration : Int) :
    List (Int × Int) → List Bool → List GlidingVoice → List Bool × List GlidingVoice
  | [], alloc, voices => (alloc, voices)
  | (srcPitch, targetPitch) :: rest, alloc, voices =>
    match MPEVoiceAllocator.allocate alloc with
    | none => allocateGlidingVoices startTime duration rest alloc voices
    | some (ch, alloc') =>
      allocateGlidingVoices startTime duration rest alloc'
        (voices ++ [GlidingVoice.create ch srcPitch targetPitch startTime duration])

/-- ChordTransitionEngine::startTransition (PluginProcessor.cpp lines 399-432);
the virtual strategy call is a function parameter. -/
def ChordTransitionEngine.startTransition (st : EngineState)
    (strat : List Int → List Int → List (Int × List Int)) : EngineState :=
  match st.currentChord, st.pendingChord with
  | some cur, some pend =>
    let mapping := strat cur.getPitches pend.getPitches
    let alloc0 := st.activeVoices.foldl
      (fun a v => MPEVoiceAllocator.release v.channel a) st.allocator
    let transitionStart := pend.timestamp - st.lookaheadSamples
    let r := allocateGlidingVoices transitionStart st.lookaheadSamples
      (transitionPairs mapping) alloc0 []
    { st with allocator := r.1, activeVoices := r.2,
              currentChord := some pend, pendingChord := none }
  | _, _ => st

/-- The emissions of one iteration of the per-sample loop in
ChordTransitionEngine::processVoiceGlides, for the already-updated voice `v1`.
The note-on condition `globalTime == voice.getStartPitch() && sample == 0` is
exactly the source's (it compares a time against a pitch). -/
def glideStep (blockStartTime : Int) (pbr : ℚ) (sample : Nat) (v1 : GlidingVoice)
    (out : List OutputEvent) : List OutputEvent :=
  let globalTime := blockStartTime + (sample : Int)
  let out1 :=
    if globalTime == v1.startPitch && sample == 0 then
      sendMidiNoteOn out v1.channel v1.startPitch 100 (sample : Int)
    else out
  let out2 :=
    if v1.isGliding && sample % 8 == 0 then
      sendMidiPitchBend out1 pbr v1.channel v1.currentPitchBend (sample : Int)
    else out1
  if v1.hasReachedTarget && !(v1.startPitch == v1.targetPitch) then
    sendMidiPitchBend
      (sendMidiNoteOn (sendMidiNoteOff out2 v1.channel v1.startPitch (sample : Int))
        v1.channel v1.targetPitch 100 (sample : Int))
      pbr v1.channel 0 (sample : Int)
  else out2

/-- The inner per-sample loop of ChordTransitionEngine::processVoiceGlides for
one voice: `sample` is the current block offset, `remaining` the samples left.
Each iteration advances the glide, then emits via `glideStep`. -/
def glideLoop (blockStartTime : Int) (pbr : ℚ) :
    Nat → Nat → GlidingVoice → List OutputEvent → GlidingVoice × List OutputEvent
  | _, 0, v, out => (v, out)
  | sample, r + 1, v, out =>
    let v1 := v.updateGlide (blockStartTime + (sample : Int))
    glideLoop blockStartTime pbr (sample + 1) r v1 (glideStep blockStartTime pbr sample v1 out)

/-- ChordTransitionEngine::processVoiceGlides (PluginProcessor.cpp lines 434-467). -/
def ChordTransitionEngine.processVoiceGlides (st : EngineState)
    (output : List OutputEvent) (blockStartTime : Int) (blockSize : Nat) :
    EngineState × List OutputEvent :=
  let r := st.activeVoices.foldl
    (fun (acc : List GlidingVoice × List OutputEvent) v =>
      let res := glideLoop blockStartTime st.pitchBendRange 0 blockSize v acc.2
      (acc.1 ++ [res.1], res.2))
    ([], output)
  ({ st with activeVoices := r.1 }, r.2)

/-- ChordTransitionEngine::bufferIncomingMidi (PluginProcessor.cpp lines
288-300): only note-ons and note-offs are kept, stamped with global time. -/
def ChordTransitionEngine.bufferIncomingMidi (buffer : List BufferedMidiEvent)
    (input : List InputEvent) (blockStartTime : Int) : List BufferedMidiEvent :=
  buffer ++ input.filterMap (fun e =>
    if e.message.isNoteOn || e.message.isNoteOff then
      some ⟨e.message, blockStartTime + e.samplePosition⟩
    else none)

/-- The keys of the `std::map<int64_t, std::vector<Note>> noteOnsByTime`:
the distinct global timestamps of eligible note-ons, in ascending order
(std::map iterates its keys sorted). -/
def eligibleNoteOnTimes (buffer : List BufferedMidiEvent)
    (lookaheadEndTime : Int) : List Int :=
  (List.insertionSort (fun a b : Int => a ≤ b)
    (buffer.filterMap (fun e =>
      if e.message.isNoteOn && decide (e.globalTimestamp < lookaheadEndTime) then
        some e.globalTimestamp
      else none))).dedup

/-- The vector stored in `noteOnsByTime` for one timestamp: eligible note-ons
with that timestamp, in buffer order. -/
def noteOnGroup (buffer : List BufferedMidiEvent)
    (lookaheadEndTime ts : Int) : List Note :=
  buffer.filterMap (fun e =>
    match e.message with
    | MidiMsg.noteOn _ pitch vel =>
      if e.globalTimestamp < lookaheadEndTime ∧ e.globalTimestamp = ts then
        some ⟨pitch, vel, e.globalTimestamp⟩
      else none
    | _ => none)

/-- The note-offs collected by processBufferedEvents: note-offs of the current
block, in buffer order. -/
def eligibleNoteOffs (buffer : List BufferedMidiEvent)
    (blockStartTime blockEndTime : Int) : List BufferedMidiEvent :=
  buffer.filter (fun e =>
    e.message.isNoteOff && decide (blockStartTime ≤ e.globalTimestamp) &&
      decide (e.globalTimestamp < blockEndTime))

/-- The note-off loop of processBufferedEvents: each eligible note-off is
handled at its clamped block-local offset. -/
def noteOffPhase (blockStartTime : Int) (blockSize : Nat)
    (evs : List BufferedMidiEvent) (acc : EngineState × List OutputEvent) :
    EngineState × List OutputEvent :=
  evs.foldl
    (fun (acc : EngineState × List OutputEvent) e =>
      ChordTransitionEngine.handleNoteOff acc.1 acc.2 e.message.getNoteNumber
        (jlimit 0 ((blockSize : Int) - 1) (e.globalTimestamp - blockStartTime)))
    acc

/-- The chord-detection loop of processBufferedEvents: walk the `std::map`
of simultaneous note-ons in ascending timestamp order; groups of ≥ 2 notes
are chords.  `snapshot` is the buffer at entry, which nothing mutates before
pruning. -/
def detectPhase (snapshot : List BufferedMidiEvent) (lookaheadEndTime : Int)
    (st : EngineState) : EngineState :=
  (eligibleNoteOnTimes snapshot lookaheadEndTime).foldl
    (fun s ts =>
      if 2 ≤ (noteOnGroup snapshot lookaheadEndTime ts).length then
        ChordTransitionEngine.detectChordChange s (noteOnGroup snapshot lookaheadEndTime ts)
      else s)
    st

/-- The transition check of processBufferedEvents (PluginProcessor.cpp lines
346-355). -/
def transitionPhase (strat : List Int → List Int → List (Int × List Int))
    (st : EngineState) : EngineState :=
  match st.currentChord, st.pendingChord with
  | some _, some pend =>
    if st.currentGlobalTime ≥ pend.timestamp - st.lookaheadSamples ∧
        st.activeVoices.isEmpty then
      ChordTransitionEngine.startTransition st strat
    else st
  | _, _ => st

/-- The cleanup of processBufferedEvents: drop all buffered events strictly
before the block end. -/
def prunePhase (blockEndTime : Int) (st : EngineState) : EngineState :=
  { st with midiBuffer :=
    st.midiBuffer.filter (fun e => decide (blockEndTime ≤ e.globalTimestamp)) }

/-- ChordTransitionEngine::processBufferedEvents (PluginProcessor.cpp lines
302-368): note-offs, chord detection, the transition check, voice glides and
buffer pruning, in source order. -/
def ChordTransitionEngine.processBufferedEvents (st : EngineState)
    (output : List OutputEvent) (blockStartTime : Int) (blockSize : Nat)
    (strat : List Int → List Int → List (Int × List Int)) :
    EngineState × List OutputEvent :=
  let blockEndTime := blockStartTime + (blockSize : Int)
  let lookaheadEndTime := blockEndTime + st.lookaheadSamples
  let r1 := noteOffPhase blockStartTime blockSize
    (eligibleNoteOffs st.midiBuffer blockStartTime blockEndTime) (st, output)
  let st3 := transitionPhase strat (detectPhase st.midiBuffer lookaheadEndTime r1.1)
  let r2 := ChordTransitionEngine.processVoiceGlides st3 r1.2 blockStartTime blockSize
  (prunePhase blockEndTime r2.1, r2.2)

/-- The epilogue of ChordTransitionEngine::processBlock: the global sample
counter advances by the block size. -/
def finishBlock (numSamples : Nat) (r : EngineState × List OutputEvent) :
    EngineState × List OutputEvent :=
  ({ r.1 with currentGlobalTime := r.1.currentGlobalTime + (numSamples : Int) }, r.2)

/-- ChordTransitionEngine::processBlock (PluginProcessor.cpp lines 270-286):
store the block parameters, buffer the incoming note events, process, return
the new state and the output buffer that replaces the input. -/
def ChordTransitionEngine.processBlock (st : EngineState) (input : List InputEvent)
    (numSamples : Nat) (pitchBendRange : ℚ)
    (strat : List Int → List Int → List (Int × List Int)) :
    EngineState × List OutputEvent :=
  finishBlock numSamples
    (ChordTransitionEngine.processBufferedEvents
      (({ st with pitchBendRange := pitchBendRange }).withBuffer
        (ChordTransitionEngine.bufferIncomingMidi st.midiBuffer input st.currentGlobalTime))
      [] st.currentGlobalTime numSamples strat)

/-- Chord [60,64,67] as three simultaneous note-ons at block offset 0. -/
def scenarioB_chord1 : List InputEvent :=
  [⟨MidiMsg.noteOn 1 60 100, 0⟩, ⟨MidiMsg.noteOn 1 64 100, 0⟩, ⟨MidiMsg.noteOn 1 67 100, 0⟩]

/-- Chord [62,65,69] as three simultaneous note-ons at block offset 0. -/
def scenarioB_chord2 : List InputEvent :=
  [⟨MidiMsg.noteOn 1 62 100, 0⟩, ⟨MidiMsg.noteOn 1 65 100, 0⟩, ⟨MidiMsg.noteOn 1 69 100, 0⟩]

/-- Run the engine over consecutive blocks of 40 samples with the nearest
strategy and pitch-bend range 12. -/
def processBlocks40 (st : EngineState) (inputs : List (List InputEvent)) : EngineState :=
  inputs.foldl
    (fun s inp => (ChordTransitionEngine.processBlock s inp 40 12 NearestNoteMapping.map).1) st

/-- Scenario B run with lookahead 480, as 48 consecutive 40-sample blocks:
the first chord arrives at global sample 0 (block 0), the second at global
sample 1000 (offset 0 of block 25), processing up to global time 1920. -/
def scenarioB_final : EngineState :=
  processBlocks40 (ChordTransitionEngine.initial 480)
    ((List.range 48).map (fun i =>
      if i = 0 then scenarioB_chord1 else if i = 25 then scenarioB_chord2 else []))

/-- The channel numbers marked used by an allocator state. -/
def usedChannels (alloc : List Bool) : List Int :=
  (alloc.enum.filter (fun p => p.2)).map (fun p => 2 + (p.1 : Int))

/-- The channel-conservation invariant of the spec: a channel is marked used
exactly when an active voice holds it. -/
def channelConservation (st : EngineState) : Prop :=
  ∀ ch : Int, ch ∈ usedChannels st.allocator ↔ ch ∈ st.activeVoices.map GlidingVoice.channel

/-- A mid-transition engine state: current chord [62] (the target of a glide
still in flight), one voice gliding from 60 to 62 on channel 2, channel 2
marked used.  Channel conservation holds here. -/
def c2_state : EngineState :=
  ⟨(List.replicate 15 false).set 0 true,
   [GlidingVoice.create 2 60 62 520 480], [],
   some (Chord.ofList [⟨62, 100, 1000⟩] 1000), none, 480, 960, 12⟩

/-- Scenario A: chord [60,64,67] as three simultaneous note-ons at t=0 into a
fresh engine, one block of 64 samples. -/
def scenarioA_result : EngineState × List OutputEvent :=
  ChordTransitionEngine.processBlock (ChordTransitionEngine.initial 480)
    [⟨MidiMsg.noteOn 1 60 100, 0⟩, ⟨MidiMsg.noteOn 1 64 100, 0⟩, ⟨MidiMsg.noteOn 1 67 100, 0⟩]
    64 12 NearestNoteMapping.map

/-- A voice gliding from pitch 60 to 62 over 4 samples starting at time 0. -/
def c5_voice : GlidingVoice :=
  GlidingVoice.create 2 60 62 0 4

/-- A mid-transition engine state for C8: current chord [62,65] (targets of a
glide), a voice still gliding from old pitch 60 to 62 on channel 2. -/
def c8_state : EngineState :=
  ⟨(List.replicate 15 false).set 0 true,
   [GlidingVoice.create 2 60 62 520 480], [],
   some (Chord.ofList [⟨62, 100, 1000⟩, ⟨65, 100, 1000⟩] 1000), none, 480, 960, 12⟩

/-- A single chord mutation, for stating the chord invariant over arbitrary
operation sequences. -/
inductive ChordOp where
  | add (n : Note)
  | remove (pitch : Int)

/-- Apply one mutation. -/
def applyChordOp (c : Chord) : ChordOp → Chord
  | .add n => c.addNote n
  | .remove p => c.removeNote p

/-- Apply a sequence of mutations left to right. -/
def applyChordOps (c : Chord) (ops : List ChordOp) : Chord :=
  ops.foldl applyChordOp c

/-- Modelled from the spec: the decoder of the 14-bit pitch-bend encoding.
The repository contains no decoder; the spec's round-trip property reads the
encoding `clamp(-1,1, semitones/range) * 8192 + 8192` back through the
inverse affine map `(value − 8192) / 8192 * range`. -/
def decodePitchBend (bendValue : Int) (pitchBendRange : ℚ) : ℚ :=
  ((bendValue : ℚ) - 8192) / 8192 * pitchBendRange

/-- The message kinds the engine itself emits. -/
def isEngineEvent (m : MidiMsg) : Bool :=
  m.isNoteOn || m.isNoteOff || m.isPitchWheel

/-- Output list `o2` extends `o1` by engine-generated events only. -/
def OutExt (o1 o2 : List OutputEvent) : Prop :=
  ∃ extra, o2 = o1 ++ extra ∧ ∀ ev ∈ extra, isEngineEvent ev.message = true

/-- Sort ascending then de-duplicate: the iteration order of the
`std::map` keys built from a list of timestamps. -/
def sortDedup (l : List Int) : List Int :=
  (List.insertionSort (fun a b : Int => a ≤ b) l).dedup

/-- The timestamp extracted from a buffered event by eligibleNoteOnTimes. -/
def tsOf (lkE : Int) (e : BufferedMidiEvent) : Option Int :=
  if e.message.isNoteOn && decide (e.globalTimestamp < lkE) then
    some e.globalTimestamp
  else none

/-! ## Theorems -/

/-- C1: the Queued-to-Gliding transition never happens in Scenario B.  The
guard `currentGlobalTime >= transitionStartTime && activeVoices_.empty()`
(PluginProcessor.cpp line 351) can never fire while the first chord is held:
its three voices stay in `activeVoices_` (nothing removes a landed voice), so
although `currentGlobalTime` passes 520 at global time 960 with the pending
chord set, the pending chord [62,65,69] is still queued and the current chord
is still [60,64,67] at global time 1920 — the engine never glides.  Moreover
the first-encountered-target greedy pass maps 67 to 65 (distance 2), not to
69, so even the claimed mapping 60→62, 64→65, 67→69 is not what the code
computes. -/
theorem C1_scenarioB_transition_never_starts :
    scenarioB_final.currentGlobalTime = 1920 ∧
    scenarioB_final.pendingChord.map Chord.getPitches = some [62, 65, 69] ∧
    scenarioB_final.currentChord.map Chord.getPitches = some [60, 64, 67] ∧
    scenarioB_final.activeVoices.length = 3 ∧
    NearestNoteMapping.map [60, 64, 67] [62, 65, 69] =
      [(60, [62]), (64, [65]), (67, [65, 69])] := by
  refine ⟨?_, ?_, ?_, ?_, ?_⟩ <;> decide

/-- C2: handleNoteOff leaks channels.  In `c2_state` conservation holds; a
note-off for pitch 62 empties the chord, and the cleanup branch
(PluginProcessor.cpp lines 497-502) clears `activeVoices_` without releasing
the channels of voices whose start/current pitch differs from the released
pitch: afterwards channel 2 is still marked used while no voice holds it. -/
theorem C2_channel_leak :
    channelConservation c2_state ∧
    (ChordTransitionEngine.handleNoteOff c2_state [] 62 0).1.activeVoices = [] ∧
    usedChannels (ChordTransitionEngine.handleNoteOff c2_state [] 62 0).1.allocator = [2] ∧
    ¬ channelConservation (ChordTransitionEngine.handleNoteOff c2_state [] 62 0).1 := by
  refine ⟨?_, by decide, by decide, ?_⟩
  · intro ch
    have h1 : usedChannels c2_state.allocator = [2] := by decide
    have h2 : c2_state.activeVoices.map GlidingVoice.channel = [2] := by decide
    rw [h1, h2]
  · intro h
    have h1 : usedChannels (ChordTransitionEngine.handleNoteOff c2_state [] 62 0).1.allocator
        = [2] := by decide
    have h2 : (ChordTransitionEngine.handleNoteOff c2_state [] 62 0).1.activeVoices
        = [] := by decide
    have := (h 2).mp (by rw [h1]; exact List.mem_singleton.mpr rfl)
    rw [h2] at this
    simp at this

/-- C4: Scenario A creates the three zero-duration voices on channels 2,3,4,
but the output block is empty — no note-on is ever emitted.  The guard
`globalTime == voice.getStartPitch() && sample == 0` (PluginProcessor.cpp
line 446) compares a time against a pitch (0 ≠ 60/64/67), so the initial
note-ons the claim requires at offset 0 never appear.  (No pitch-bend events
appear either, as the claim says.) -/
theorem C4_scenarioA_no_noteons :
    scenarioA_result.2 = [] ∧
    scenarioA_result.1.activeVoices.map GlidingVoice.channel = [2, 3, 4] ∧
    scenarioA_result.1.activeVoices.map GlidingVoice.glideDurationSamples = [0, 0, 0] ∧
    scenarioA_result.1.activeVoices.map GlidingVoice.startPitch = [60, 64, 67] ∧
    scenarioA_result.1.currentChord.map Chord.getPitches = some [60, 64, 67] := by
  refine ⟨?_, ?_, ?_, ?_, ?_⟩ <;> decide

/-- C3 counterexample: for source [60,61] and target [60,100], both sources
greedily pick target 60 in the first pass, so target 60 appears in two
entries' target lists — not in exactly one. -/
theorem C3_counterexample :
    NearestNoteMapping.map [60, 61] [60, 100] = [(60, [60]), (61, [60, 100])] ∧
    (NearestNoteMapping.map [60, 61] [60, 100]).countP (fun e => e.2.contains 60) = 2 ∧
    ¬ (NearestNoteMapping.map [60, 61] [60, 100]).countP (fun e => e.2.contains 60) = 1 := by
  refine ⟨?_, ?_, ?_⟩ <;> decide

/-- C5 counterexample: at completion (elapsed = duration) updateGlide sets the
bend to 0 and snaps currentPitch to the target — it does not clamp progress
to 1 and report target − start = 2 as the claim states. -/
theorem C5_counterexample :
    (c5_voice.updateGlide 4).currentPitchBend = 0 ∧
    ¬ (c5_voice.updateGlide 4).currentPitchBend =
        ((c5_voice.targetPitch - c5_voice.startPitch : Int) : ℚ) ∧
    (c5_voice.updateGlide 4).currentPitch = 62 ∧
    (c5_voice.updateGlide 4).isGliding = false := by
  refine ⟨?_, ?_, ?_, ?_⟩ <;> decide

/-- C6 counterexample: the Chord constructor only sorts — it does not
de-duplicate, so constructing from two notes with the same pitch leaves a
duplicated pitch in the chord. -/
theorem C6_counterexample :
    (Chord.ofList [⟨60, 100, 0⟩, ⟨60, 90, 0⟩] 0).getPitches = [60, 60] ∧
    ¬ List.Nodup ((Chord.ofList [⟨60, 100, 0⟩, ⟨60, 90, 0⟩] 0).getPitches) := by
  refine ⟨?_, ?_⟩ <;> decide

/-- C8 counterexample: pitch 60 is not in the current chord [62,65], yet
handleNoteOff stops the voice whose startPitch is 60: it emits a note-off,
releases channel 2 and removes the voice — very much an observable change. -/
theorem C8_counterexample :
    (Chord.ofList [⟨62, 100, 1000⟩, ⟨65, 100, 1000⟩] 1000).containsNote 60 = false ∧
    (ChordTransitionEngine.handleNoteOff c8_state [] 60 0).1.activeVoices = [] ∧
    (ChordTransitionEngine.handleNoteOff c8_state [] 60 0).2 =
      [⟨MidiMsg.noteOff 2 60, 0⟩] ∧
    (ChordTransitionEngine.handleNoteOff c8_state [] 60 0).1.allocator =
      List.replicate 15 false := by
  refine ⟨?_, ?_, ?_, ?_⟩ <;> decide

lemma allocateAux_none_iff (l : List Bool) :
    allocateAux l = none ↔ ∀ b ∈ l, b = true := by
  induction l with
  | nil => simp [allocateAux]
  | cons b rest ih =>
    by_cases hb : b = true
    · subst hb
      cases hrec : allocateAux rest with
      | none =>
        simp only [allocateAux, hrec]
        constructor
        · intro _ b hmem
          rcases List.mem_cons.mp hmem with h | h
          · exact h ▸ rfl
          · exact ih.mp hrec b h
        · intro _; rfl
      | some p =>
        obtain ⟨j, r'⟩ := p
        simp only [allocateAux, hrec]
        constructor
        · intro hcontra; simp at hcontra
        · intro hall
          have : allocateAux rest = none := ih.mpr fun b hm => hall b (List.mem_cons_of_mem _ hm)
          rw [this] at hrec; exact absurd hrec (by simp)
    · simp only [Bool.not_eq_true] at hb
      subst hb
      simp only [allocateAux]
      constructor
      · intro hcontra; simp at hcontra
      · intro hall
        exact absurd (hall false (List.mem_cons_self _ _)) (by simp)

lemma allocateAux_some_spec (l : List Bool) :
    ∀ i l', allocateAux l = some (i, l') →
      i < l.length ∧ l.getD i false = false ∧
      (∀ j, j < i → l.getD j false = true) ∧ l' = l.set i true := by
  induction l with
  | nil => intro i l' h; simp [allocateAux] at h
  | cons b rest ih =>
    intro i l' h
    by_cases hb : b = true
    · subst hb
      cases hrec : allocateAux rest with
      | none => simp [allocateAux, hrec] at h
      | some p =>
        obtain ⟨j, r'⟩ := p
        simp only [allocateAux, hrec, if_true, Option.some.injEq, Prod.mk.injEq] at h
        obtain ⟨rfl, rfl⟩ := h
        obtain ⟨h1, h2, h3, h4⟩ := ih j r' hrec
        refine ⟨by simpa using Nat.succ_lt_succ h1, ?_, ?_, ?_⟩
        · simpa only [List.getD_cons_succ] using h2
        · intro k hk
          cases k with
          | zero => simp [List.getD_cons_zero]
          | succ k' =>
            simpa only [List.getD_cons_succ] using h3 k' (Nat.lt_of_succ_lt_succ hk)
        · simp [h4]
    · simp only [Bool.not_eq_true] at hb
      subst hb
      simp only [allocateAux, Option.some.injEq, Prod.mk.injEq] at h
      obtain ⟨rfl, rfl⟩ := h
      exact ⟨Nat.succ_pos _, by simp [List.getD_cons_zero],
        fun j hj => absurd hj (Nat.not_lt_zero j), by simp⟩

lemma set_getD_false : ∀ (l : List Bool) (i : Nat),
    l.getD i false = false → l.set i false = l := by
  intro l
  induction l with
  | nil => intro i _; rfl
  | cons b rest ih =>
    intro i h
    cases i with
    | zero =>
      simp only [List.getD_cons_zero] at h
      simp [h]
    | succ i' =>
      simp only [List.getD_cons_succ] at h
      simp [ih i' h]

lemma getD_set_false_self : ∀ (l : List Bool) (i : Nat),
    (l.set i false).getD i false = false := by
  intro l
  induction l with
  | nil => intro i; rfl
  | cons b rest ih =>
    intro i
    cases i with
    | zero => rfl
    | succ i' => simpa only [List.set, List.getD_cons_succ] using ih i'

lemma getD_set_other : ∀ (l : List Bool) (i j : Nat) (v : Bool), i ≠ j →
    (l.set i v).getD j false = l.getD j false := by
  intro l
  induction l with
  | nil => intro i j v _; rfl
  | cons b rest ih =>
    intro i j v hij
    cases i with
    | zero =>
      cases j with
      | zero => exact absurd rfl hij
      | succ j' => rfl
    | succ i' =>
      cases j with
      | zero => rfl
      | succ j' =>
        simpa only [List.set, List.getD_cons_succ] using
          ih i' j' v (fun hc => hij (congrArg Nat.succ hc))

/-- C7: the allocator contract.  Releasing a held in-range channel frees
exactly its slot; out-of-range or not-held releases are no-ops; release is
idempotent; allocate returns the lowest free channel, or none exactly when
all 15 are used. -/
theorem C7_allocator_contract (used : List Bool) (h : used.length = 15) :
    (∀ ch used', MPEVoiceAllocator.allocate used = some (ch, used') →
      2 ≤ ch ∧ ch ≤ 16 ∧ used.getD (ch - 2).toNat false = false ∧
      (∀ j : Nat, j < (ch - 2).toNat → used.getD j false = true) ∧
      used' = used.set (ch - 2).toNat true) ∧
    (MPEVoiceAllocator.allocate used = none ↔ ∀ b ∈ used, b = true) ∧
    (∀ ch : Int, 2 ≤ ch → ch ≤ 16 →
      (MPEVoiceAllocator.release ch used).getD (ch - 2).toNat false = false ∧
      (∀ j : Nat, j ≠ (ch - 2).toNat →
        (MPEVoiceAllocator.release ch used).getD j false = used.getD j false)) ∧
    (∀ ch : Int, ch < 2 ∨ 16 < ch → MPEVoiceAllocator.release ch used = used) ∧
    (∀ ch : Int, used.getD (ch - 2).toNat false = false →
      MPEVoiceAllocator.release ch used = used) ∧
    (∀ ch : Int, MPEVoiceAllocator.release ch (MPEVoiceAllocator.release ch used) =
      MPEVoiceAllocator.release ch used) := by
  refine ⟨?_, ?_, ?_, ?_, ?_, ?_⟩
  · intro ch used' halloc
    unfold MPEVoiceAllocator.allocate at halloc
    cases hrec : allocateAux used with
    | none => rw [hrec] at halloc; simp at halloc
    | some p =>
      obtain ⟨i, u'⟩ := p
      rw [hrec] at halloc
      simp only [Option.some.injEq, Prod.mk.injEq] at halloc
      obtain ⟨hch, hu⟩ := halloc
      obtain ⟨h1, h2, h3, h4⟩ := allocateAux_some_spec used i u' hrec
      have hi : (ch - 2).toNat = i := by omega
      subst hu
      rw [hi]
      exact ⟨by omega, by omega, h2, h3, h4⟩
  · unfold MPEVoiceAllocator.allocate
    cases hrec : allocateAux used with
    | none => simpa [hrec] using (allocateAux_none_iff used).mp hrec
    | some p =>
      simp only [hrec]
      constructor
      · intro hcontra; exact absurd hcontra (by simp)
      · intro hall
        have := (allocateAux_none_iff used).mpr hall
        rw [this] at hrec
        exact absurd hrec (by simp)
  · intro ch h1 h2
    unfold MPEVoiceAllocator.release
    rw [if_pos ⟨h1, h2⟩]
    exact ⟨getD_set_false_self used _,
      fun j hj => getD_set_other used _ j false (fun hc => hj hc.symm)⟩
  · intro ch hch
    unfold MPEVoiceAllocator.release
    rw [if_neg]
    rintro ⟨h1, h2⟩
    omega
  · intro ch hfree
    unfold MPEVoiceAllocator.release
    split
    · exact set_getD_false used _ hfree
    · rfl
  · intro ch
    unfold MPEVoiceAllocator.release
    by_cases hr : 2 ≤ ch ∧ ch ≤ 16
    · simp [hr, List.set_set]
    · simp [hr]

theorem C7_allocator_contract_witness :
    ((List.replicate 15 false).set 0 true).length = 15 ∧
    (MPEVoiceAllocator.release 2 ((List.replicate 15 false).set 0 true)).getD 0 false
      = false ∧
    MPEVoiceAllocator.release 9 ((List.replicate 15 false).set 0 true)
      = (List.replicate 15 false).set 0 true :=
  ⟨by decide,
   ((C7_allocator_contract ((List.replicate 15 false).set 0 true)
      (by decide)).2.2.1 2 (by decide) (by decide)).1,
   (C7_allocator_contract ((List.replicate 15 false).set 0 true)
      (by decide)).2.2.2.2.1 9 (by decide)⟩

/-- C5 amended: the glide law as the code implements it.  While gliding and
strictly before the duration elapses, the bend follows
`(target − start) * elapsed / duration` (so it is exactly 0 at the start and
monotonic toward `target − start`); at or after `glideStartTime + duration`
(immediately when the duration is ≤ 0) the voice instead zeroes its bend,
snaps `currentPitch` to the target and stops gliding. -/
theorem C5_amended_glide_law (v : GlidingVoice) (hg : v.isGliding = true) :
    (∀ t : Int, v.glideStartTime ≤ t → t - v.glideStartTime < v.glideDurationSamples →
      (v.updateGlide t).currentPitchBend =
        ((v.targetPitch - v.startPitch : Int) : ℚ) * ((t - v.glideStartTime : Int) : ℚ) /
          ((v.glideDurationSamples : Int) : ℚ) ∧
      (v.updateGlide t).isGliding = true) ∧
    (∀ t : Int, v.glideDurationSamples ≤ t - v.glideStartTime →
      (v.updateGlide t).currentPitchBend = 0 ∧
      (v.updateGlide t).currentPitch = v.targetPitch ∧
      (v.updateGlide t).isGliding = false) ∧
    (0 < v.glideDurationSamples →
      (v.updateGlide v.glideStartTime).currentPitchBend = 0) ∧
    (∀ t1 t2 : Int, v.glideStartTime ≤ t1 → t1 ≤ t2 →
      t2 - v.glideStartTime < v.glideDurationSamples →
      ((v.startPitch ≤ v.targetPitch →
        (v.updateGlide t1).currentPitchBend ≤ (v.updateGlide t2).currentPitchBend) ∧
       (v.targetPitch ≤ v.startPitch →
        (v.updateGlide t2).currentPitchBend ≤ (v.updateGlide t1).currentPitchBend))) := by
  have law : ∀ t : Int, v.glideStartTime ≤ t → t - v.glideStartTime < v.glideDurationSamples →
      (v.updateGlide t).currentPitchBend =
        ((v.targetPitch - v.startPitch : Int) : ℚ) * ((t - v.glideStartTime : Int) : ℚ) /
          ((v.glideDurationSamples : Int) : ℚ) ∧
      (v.updateGlide t).isGliding = true := by
    intro t h1 h2
    have hdur : 0 < v.glideDurationSamples := by omega
    have hlt : ¬ (t - v.glideStartTime ≥ v.glideDurationSamples) := by omega
    simp only [GlidingVoice.updateGlide, hg, Bool.not_true, Bool.false_eq_true, if_false,
      if_neg hlt, if_pos hdur]
    exact ⟨(mul_div_assoc _ _ _).symm, trivial⟩
  refine ⟨law, ?_, ?_, ?_⟩
  · intro t hge
    simp only [GlidingVoice.updateGlide, hg, Bool.not_true, Bool.false_eq_true, if_false,
      if_pos hge]
    exact ⟨trivial, trivial, trivial⟩
  · intro hdur
    have := (law v.glideStartTime le_rfl (by omega)).1
    rw [this]
    simp
  · intro t1 t2 ha hb hc
    have l1 := (law t1 ha (by omega)).1
    have l2 := (law t2 (le_trans ha hb) hc).1
    have hdur : 0 < v.glideDurationSamples := by omega
    have hdurq : (0 : ℚ) < ((v.glideDurationSamples : Int) : ℚ) := by
      exact_mod_cast hdur
    have hee : ((t1 - v.glideStartTime : Int) : ℚ) ≤ ((t2 - v.glideStartTime : Int) : ℚ) := by
      exact_mod_cast sub_le_sub_right hb _
    constructor
    · intro hsp
      rw [l1, l2]
      have hd : (0 : ℚ) ≤ ((v.targetPitch - v.startPitch : Int) : ℚ) := by
        exact_mod_cast sub_nonneg.mpr hsp
      exact (div_le_div_iff_of_pos_right hdurq).mpr (mul_le_mul_of_nonneg_left hee hd)
    · intro hsp
      rw [l1, l2]
      have hd : ((v.targetPitch - v.startPitch : Int) : ℚ) ≤ 0 := by
        exact_mod_cast sub_nonpos.mpr hsp
      exact (div_le_div_iff_of_pos_right hdurq).mpr (mul_le_mul_of_nonpos_left hee hd)

theorem C5_amended_glide_law_witness :
    c5_voice.isGliding = true ∧
    (c5_voice.updateGlide 2).currentPitchBend =
      ((c5_voice.targetPitch - c5_voice.startPitch : Int) : ℚ) *
        ((2 - c5_voice.glideStartTime : Int) : ℚ) /
          ((c5_voice.glideDurationSamples : Int) : ℚ) :=
  ⟨by decide, ((C5_amended_glide_law c5_voice (by decide)).1 2 (by decide) (by decide)).1⟩

lemma sorted_pitches_of_sorted_notes {l : List Note} (h : List.Sorted notePitchLe l) :
    List.Sorted (fun a b : Int => a ≤ b) (l.map Note.pitch) :=
  List.Pairwise.map Note.pitch (fun _ _ hab => hab) h

lemma sorted_pitches_ofList (notes : List Note) (ts : Int) :
    List.Sorted (fun a b : Int => a ≤ b) ((Chord.ofList notes ts).getPitches) :=
  sorted_pitches_of_sorted_notes (List.sorted_insertionSort notePitchLe notes)

lemma nodup_pitches_ofList {notes : List Note} (ts : Int)
    (h : List.Nodup (notes.map Note.pitch)) :
    List.Nodup ((Chord.ofList notes ts).getPitches) :=
  (((List.perm_insertionSort notePitchLe notes).map Note.pitch).symm).nodup h

lemma sorted_pitches_addNote {c : Chord} (n : Note)
    (h : List.Sorted (fun a b : Int => a ≤ b) c.getPitches) :
    List.Sorted (fun a b : Int => a ≤ b) ((c.addNote n).getPitches) := by
  unfold Chord.addNote
  split
  · exact h
  · exact sorted_pitches_of_sorted_notes (List.sorted_insertionSort notePitchLe _)

lemma nodup_pitches_addNote {c : Chord} (n : Note)
    (h : List.Nodup c.getPitches) :
    List.Nodup ((c.addNote n).getPitches) := by
  unfold Chord.addNote
  split
  · exact h
  · rename_i habs
    apply (((List.perm_insertionSort notePitchLe (c.notes ++ [n])).map Note.pitch).symm).nodup
    rw [List.map_append]
    rw [List.nodup_append]
    refine ⟨h, List.nodup_singleton _, ?_⟩
    intro p hp hps
    simp only [List.map_cons, List.map_nil, List.mem_singleton] at hps
    subst hps
    obtain ⟨m, hm, hmp⟩ := List.mem_map.mp hp
    exact habs (List.any_eq_true.mpr ⟨m, hm, by simp [beq_iff_eq, hmp]⟩)

lemma sorted_pitches_removeNote {c : Chord} (p : Int)
    (h : List.Sorted (fun a b : Int => a ≤ b) c.getPitches) :
    List.Sorted (fun a b : Int => a ≤ b) ((c.removeNote p).getPitches) := by
  exact List.Pairwise.sublist ((List.filter_sublist _).map Note.pitch) h

lemma nodup_pitches_removeNote {c : Chord} (p : Int)
    (h : List.Nodup c.getPitches) :
    List.Nodup ((c.removeNote p).getPitches) := by
  exact List.Nodup.sublist ((List.filter_sublist _).map Note.pitch) h

/-- C6 amended: after construction and any mutation sequence the pitches are
nondecreasing, and they are duplicate-free provided the constructor input had
pairwise distinct pitches (the constructor sorts but does not de-duplicate;
`addNote`/`removeNote` preserve both properties). -/
theorem C6_amended_chord_invariant (notes : List Note) (ts : Int) (ops : List ChordOp) :
    List.Sorted (fun a b : Int => a ≤ b) ((applyChordOps (Chord.ofList notes ts) ops).getPitches) ∧
    (List.Nodup (notes.map Note.pitch) →
      List.Nodup ((applyChordOps (Chord.ofList notes ts) ops).getPitches)) := by
  have main : ∀ (ops : List ChordOp) (c : Chord),
      (List.Sorted (fun a b : Int => a ≤ b) c.getPitches →
        List.Sorted (fun a b : Int => a ≤ b) ((applyChordOps c ops).getPitches)) ∧
      (List.Nodup c.getPitches → List.Nodup ((applyChordOps c ops).getPitches)) := by
    intro ops
    induction ops with
    | nil => exact fun c => ⟨id, id⟩
    | cons op rest ih =>
      intro c
      have hstep_sorted : List.Sorted (fun a b : Int => a ≤ b) c.getPitches →
          List.Sorted (fun a b : Int => a ≤ b) ((applyChordOp c op).getPitches) := by
        cases op with
        | add n => exact sorted_pitches_addNote n
        | remove p => exact sorted_pitches_removeNote p
      have hstep_nodup : List.Nodup c.getPitches →
          List.Nodup ((applyChordOp c op).getPitches) := by
        cases op with
        | add n => exact nodup_pitches_addNote n
        | remove p => exact nodup_pitches_removeNote p
      exact ⟨fun h => (ih (applyChordOp c op)).1 (hstep_sorted h),
             fun h => (ih (applyChordOp c op)).2 (hstep_nodup h)⟩
  exact ⟨(main ops _).1 (sorted_pitches_ofList notes ts),
         fun h => (main ops _).2 (nodup_pitches_ofList ts h)⟩

theorem C6_amended_chord_invariant_witness :
    List.Sorted (fun a b : Int => a ≤ b)
      ((applyChordOps (Chord.ofList [⟨64, 100, 0⟩, ⟨60, 100, 0⟩] 0)
        [ChordOp.add ⟨62, 100, 1⟩, ChordOp.remove 64]).getPitches) ∧
    List.Nodup
      ((applyChordOps (Chord.ofList [⟨64, 100, 0⟩, ⟨60, 100, 0⟩] 0)
        [ChordOp.add ⟨62, 100, 1⟩, ChordOp.remove 64]).getPitches) :=
  ⟨(C6_amended_chord_invariant [⟨64, 100, 0⟩, ⟨60, 100, 0⟩] 0
      [ChordOp.add ⟨62, 100, 1⟩, ChordOp.remove 64]).1,
   (C6_amended_chord_invariant [⟨64, 100, 0⟩, ⟨60, 100, 0⟩] 0
      [ChordOp.add ⟨62, 100, 1⟩, ChordOp.remove 64]).2 (by decide)⟩

lemma removeNote_absent {c : Chord} {pitch : Int}
    (h : ∀ n ∈ c.notes, n.pitch ≠ pitch) : c.removeNote pitch = c := by
  unfold Chord.removeNote
  have : c.notes.filter (fun n => !(n.pitch == pitch)) = c.notes :=
    List.filter_eq_self.mpr (fun n hn => by simp [beq_iff_eq]; exact h n hn)
  rw [this]

lemma stopMatchingVoices_no_match {pitch : Int} :
    ∀ (voices : List GlidingVoice) (alloc : List Bool) (out : List OutputEvent) (ls : Int),
      (∀ v ∈ voices, v.startPitch ≠ pitch ∧ v.currentPitch ≠ pitch) →
      stopMatchingVoices pitch voices alloc out ls = (alloc, out) := by
  intro voices
  induction voices with
  | nil => intro alloc out ls _; rfl
  | cons v rest ih =>
    intro alloc out ls h
    have hv := h v (List.mem_cons_self _ _)
    have hcond : (v.startPitch == pitch || v.currentPitch == pitch) = false := by
      simp [beq_iff_eq]
      exact hv
    simp only [stopMatchingVoices, hcond, Bool.false_eq_true, if_false]
    exact ih alloc out ls (fun w hw => h w (List.mem_cons_of_mem _ hw))

/-- C8 amended: a note-off is a no-op exactly when it matches neither the
chord nor any voice.  With no chord held a note-off changes nothing; with a
non-empty chord, if the pitch is in no chord note and matches no active
voice's start or current pitch, the engine state and the output are
unchanged; and removing an absent pitch from any chord is the identity. -/
theorem C8_amended_noteoff_noop (st : EngineState) (out : List OutputEvent)
    (pitch localSample : Int) :
    (st.currentChord = none →
      ChordTransitionEngine.handleNoteOff st out pitch localSample = (st, out)) ∧
    (∀ c : Chord, st.currentChord = some c → c.notes ≠ [] →
      (∀ n ∈ c.notes, n.pitch ≠ pitch) →
      (∀ v ∈ st.activeVoices, v.startPitch ≠ pitch ∧ v.currentPitch ≠ pitch) →
      ChordTransitionEngine.handleNoteOff st out pitch localSample = (st, out)) ∧
    (∀ c : Chord, (∀ n ∈ c.notes, n.pitch ≠ pitch) → c.removeNote pitch = c) := by
  refine ⟨?_, ?_, fun c h => removeNote_absent h⟩
  · intro h
    simp [ChordTransitionEngine.handleNoteOff, h]
  · intro c hc hne habs hv
    have hrm : c.removeNote pitch = c := removeNote_absent habs
    have hstop : stopMatchingVoices pitch st.activeVoices st.allocator out localSample =
        (st.allocator, out) := stopMatchingVoices_no_match st.activeVoices _ _ _ hv
    have hfilt : st.activeVoices.filter
        (fun v => !(v.startPitch == pitch || v.currentPitch == pitch)) = st.activeVoices := by
      refine List.filter_eq_self.mpr (fun v hvm => ?_)
      have := hv v hvm
      simp [beq_iff_eq]
      exact this
    have hempty : c.isEmpty = false := by
      cases hnl : c.notes with
      | nil => exact absurd hnl hne
      | cons a l => simp [Chord.isEmpty, hnl]
    simp only [ChordTransitionEngine.handleNoteOff, hc, hrm, hstop, hfilt, hempty,
      Bool.false_eq_true, if_false]
    obtain ⟨alloc, voices, buffer, cur, pend, la, t, pbr⟩ := st
    replace hc : cur = some c := hc
    subst hc
    rfl

theorem C8_amended_noteoff_noop_witness :
    ChordTransitionEngine.handleNoteOff c8_state [] 70 0 = (c8_state, []) :=
  (C8_amended_noteoff_noop c8_state [] 70 0).2.1
    (Chord.ofList [⟨62, 100, 1000⟩, ⟨65, 100, 1000⟩] 1000)
    (by decide) (by decide) (by decide) (by decide)

/-- C9: the emitted 14-bit bend value lies in [0, 16383] and decoding it
recovers the input semitones within one LSB (`range / 8192`) whenever the
semitones lie within `[-range, range]`. -/
theorem C9_pitchbend_roundtrip (s r : ℚ) (h1 : 1 ≤ r) (h2 : r ≤ 24)
    (h3 : -r ≤ s) (h4 : s ≤ r) :
    0 ≤ sendMidiPitchBendValue r s ∧ sendMidiPitchBendValue r s ≤ 16383 ∧
    |decodePitchBend (sendMidiPitchBendValue r s) r - s| ≤ r / 8192 := by
  have hr0 : (0 : ℚ) < r := lt_of_lt_of_le one_pos h1
  set q : ℚ := s / r with hqdef
  have hq1 : -1 ≤ q := by
    rw [hqdef, le_div_iff₀ hr0]
    linarith
  have hq2 : q ≤ 1 := (div_le_one hr0).mpr h4
  have hclamp : jlimitQ (-1) 1 q = q := by
    unfold jlimitQ
    rw [if_neg (not_lt.mpr hq1), if_neg (not_lt.mpr hq2)]
  set x : ℚ := q * 8192 + 8192 with hxdef
  have hx0 : (0 : ℚ) ≤ x := by rw [hxdef]; nlinarith
  have hx1 : x ≤ 16384 := by rw [hxdef]; nlinarith
  have htr : truncQ x = ⌊x⌋ := by
    unfold truncQ
    rw [if_neg (not_lt.mpr hx0)]
  have hf0 : 0 ≤ ⌊x⌋ := Int.le_floor.mpr (by exact_mod_cast hx0)
  have hf1 : ⌊x⌋ ≤ 16384 := by
    have := (Int.floor_le x).trans hx1
    exact_mod_cast this
  have hval : sendMidiPitchBendValue r s = jlimit 0 16383 ⌊x⌋ := by
    unfold sendMidiPitchBendValue
    rw [← hqdef, hclamp, ← hxdef, htr]
  set v : Int := jlimit 0 16383 ⌊x⌋ with hvdef
  have hv0 : 0 ≤ v := by
    rw [hvdef]
    unfold jlimit
    split
    · exact le_rfl
    · split
      · norm_num
      · exact hf0
  have hv1 : v ≤ 16383 := by
    rw [hvdef]
    unfold jlimit
    rw [if_neg (not_lt.mpr hf0)]
    split
    · norm_num
    · rename_i hle
      exact not_lt.mp hle
  have hvx : |(v : ℚ) - x| ≤ 1 := by
    rw [hvdef]
    unfold jlimit
    rw [if_neg (not_lt.mpr hf0)]
    by_cases hbig : 16383 < ⌊x⌋
    · rw [if_pos hbig]
      have hfx : ⌊x⌋ = 16384 := le_antisymm hf1 hbig
      have hxe : x = 16384 := by
        have hlow : (16384 : ℚ) ≤ x := by
          have := Int.floor_le x
          rw [hfx] at this
          exact_mod_cast this
        linarith
      rw [hxe]
      norm_num
    · rw [if_neg hbig]
      have hlow := Int.floor_le x
      have hhigh := Int.lt_floor_add_one x
      rw [abs_le]
      exact ⟨by linarith, by linarith⟩
  have key : decodePitchBend v r - s = ((v : ℚ) - x) / 8192 * r := by
    have hs : q * r = s := div_mul_cancel₀ s (ne_of_gt hr0)
    unfold decodePitchBend
    rw [← hs, hxdef]
    ring
  refine ⟨hval ▸ hv0, hval ▸ hv1, ?_⟩
  rw [hval, key, abs_mul, abs_div, abs_of_pos hr0]
  have h8 : |(8192 : ℚ)| = 8192 := by norm_num
  rw [h8]
  rw [div_mul_eq_mul_div, div_le_div_iff₀ (by norm_num : (0:ℚ) < 8192) (by norm_num : (0:ℚ) < 8192)]
  nlinarith [abs_nonneg ((v : ℚ) - x)]

theorem C9_pitchbend_roundtrip_witness :
    0 ≤ sendMidiPitchBendValue 2 1 ∧ sendMidiPitchBendValue 2 1 ≤ 16383 ∧
    |decodePitchBend (sendMidiPitchBendValue 2 1) 2 - 1| ≤ 2 / 8192 :=
  C9_pitchbend_roundtrip 1 2 (by norm_num) (by norm_num) (by norm_num) (by norm_num)

lemma nearestIdxAux_lt (x : Int) :
    ∀ (rest : List Int) (j best bd : Nat), best < j →
      nearestIdxAux x rest j best bd < j + rest.length := by
  intro rest
  induction rest with
  | nil =>
    intro j best bd h
    simpa [nearestIdxAux] using h
  | cons t r ih =>
    intro j best bd h
    simp only [nearestIdxAux]
    split
    · have h2 := ih (j + 1) j ((x - t).natAbs) (Nat.lt_succ_self j)
      simp only [List.length_cons]
      omega
    · have h2 := ih (j + 1) best bd (Nat.lt_succ_of_lt h)
      simp only [List.length_cons]
      omega

lemma nearestIdx_lt (x : Int) (l : List Int) (h : l ≠ []) :
    nearestIdx x l < l.length := by
  cases l with
  | nil => exact absurd rfl h
  | cons t rest =>
    have := nearestIdxAux_lt x rest 1 0 ((x - t).natAbs) Nat.one_pos
    simpa [nearestIdx, Nat.add_comm] using this

lemma modifyIdx_length {α : Type} (f : α → α) :
    ∀ (n : Nat) (l : List α), (modifyIdx f n l).length = l.length := by
  intro n
  induction n with
  | zero => intro l; cases l <;> rfl
  | succ n ih => intro l; cases l with
    | nil => rfl
    | cons a r => simpa [modifyIdx] using ih r

lemma modifyIdx_map_fst {α β : Type} (f : α × β → α × β) (hf : ∀ e, (f e).1 = e.1) :
    ∀ (n : Nat) (l : List (α × β)), (modifyIdx f n l).map Prod.fst = l.map Prod.fst := by
  intro n
  induction n with
  | zero => intro l; cases l with
    | nil => rfl
    | cons a r => simp [modifyIdx, hf a]
  | succ n ih => intro l; cases l with
    | nil => rfl
    | cons a r => simpa [modifyIdx] using ih r

lemma modifyIdx_exists_mem (t : Int) :
    ∀ (k : Nat) (m : List (Int × List Int)), k < m.length →
      ∃ e ∈ modifyIdx (fun e => (e.1, e.2 ++ [t])) k m, t ∈ e.2 := by
  intro k
  induction k with
  | zero =>
    intro m hm
    cases m with
    | nil => simp at hm
    | cons a r =>
      exact ⟨(a.1, a.2 ++ [t]), List.mem_cons_self _ _, List.mem_append_right _ (List.mem_singleton.mpr rfl)⟩
  | succ k ih =>
    intro m hm
    cases m with
    | nil => simp at hm
    | cons a r =>
      obtain ⟨e, he, hte⟩ := ih r (by simpa using hm)
      exact ⟨e, List.mem_cons_of_mem _ he, hte⟩

lemma modifyIdx_mono (t x : Int) :
    ∀ (k : Nat) (m : List (Int × List Int)), (∃ e ∈ m, x ∈ e.2) →
      ∃ e ∈ modifyIdx (fun e => (e.1, e.2 ++ [t])) k m, x ∈ e.2 := by
  intro k
  induction k with
  | zero =>
    intro m hm
    cases m with
    | nil => simpa using hm
    | cons a r =>
      obtain ⟨e, he, hxe⟩ := hm
      rcases List.mem_cons.mp he with rfl | hr
      · exact ⟨(e.1, e.2 ++ [t]), List.mem_cons_self _ _, List.mem_append_left _ hxe⟩
      · exact ⟨e, List.mem_cons_of_mem _ hr, hxe⟩
  | succ k ih =>
    intro m hm
    cases m with
    | nil => simpa using hm
    | cons a r =>
      obtain ⟨e, he, hxe⟩ := hm
      rcases List.mem_cons.mp he with rfl | hr
      · exact ⟨e, List.mem_cons_self _ _, hxe⟩
      · obtain ⟨e', he', hxe'⟩ := ih r ⟨e, hr, hxe⟩
        exact ⟨e', List.mem_cons_of_mem _ he', hxe'⟩

lemma allTargets_cons (e : Int × List Int) (m : List (Int × List Int)) :
    allTargets (e :: m) = e.2 ++ allTargets m := rfl

lemma modifyIdx_allTargets_perm (t : Int) :
    ∀ (k : Nat) (m : List (Int × List Int)), k < m.length →
      (allTargets (modifyIdx (fun e => (e.1, e.2 ++ [t])) k m)).Perm (t :: allTargets m) := by
  intro k
  induction k with
  | zero =>
    intro m hm
    cases m with
    | nil => simp at hm
    | cons a r =>
      simp only [modifyIdx, allTargets_cons, List.append_assoc, List.singleton_append]
      exact List.perm_middle
  | succ k ih =>
    intro m hm
    cases m with
    | nil => simp at hm
    | cons a r =>
      simp only [modifyIdx, allTargets_cons]
      exact ((ih r (by simpa using hm)).append_left a.2).trans List.perm_middle

lemma getD_cons_eraseIdx_perm :
    ∀ (l : List Int) (i : Nat), i < l.length →
      (l.getD i 0 :: l.eraseIdx i).Perm l := by
  intro l
  induction l with
  | nil => intro i h; simp at h
  | cons a r ih =>
    intro i h
    cases i with
    | zero => simp [List.eraseIdx]
    | succ i =>
      have hir : i < r.length := by simpa using h
      simp only [List.getD_cons_succ, List.eraseIdx]
      exact (List.Perm.swap a _ _).trans ((ih i hir).cons a)

lemma nearestFold_map_fst (source : List Int) :
    ∀ (ps : List (Nat × Int)) (m : List (Int × List Int)),
      ((ps.foldl (fun m p =>
          modifyIdx (fun e => (e.1, e.2 ++ [p.2])) (nearestIdx p.2 source) m) m).map Prod.fst)
        = m.map Prod.fst := by
  intro ps
  induction ps with
  | nil => intro m; rfl
  | cons q rest ih =>
    intro m
    simp only [List.foldl_cons]
    exact (ih _).trans (modifyIdx_map_fst (fun e => (e.1, e.2 ++ [q.2])) (fun e => rfl) _ m)

lemma nearestFold_length (source : List Int) :
    ∀ (ps : List (Nat × Int)) (m : List (Int × List Int)),
      (ps.foldl (fun m p =>
          modifyIdx (fun e => (e.1, e.2 ++ [p.2])) (nearestIdx p.2 source) m) m).length
        = m.length := by
  intro ps
  induction ps with
  | nil => intro m; rfl
  | cons q rest ih =>
    intro m
    simp only [List.foldl_cons]
    exact (ih _).trans (modifyIdx_length _ _ m)

lemma nearestFold_mono (source : List Int) (x : Int) :
    ∀ (ps : List (Nat × Int)) (m : List (Int × List Int)),
      (∃ e ∈ m, x ∈ e.2) →
      ∃ e ∈ ps.foldl (fun m p =>
          modifyIdx (fun e => (e.1, e.2 ++ [p.2])) (nearestIdx p.2 source) m) m, x ∈ e.2 := by
  intro ps
  induction ps with
  | nil => intro m hm; exact hm
  | cons q rest ih =>
    intro m hm
    simp only [List.foldl_cons]
    exact ih _ (modifyIdx_mono _ x _ m hm)

lemma nearestFold_mem (source : List Int) (hs : source ≠ []) :
    ∀ (ps : List (Nat × Int)) (m : List (Int × List Int)),
      m.length = source.length → ∀ p ∈ ps,
      ∃ e ∈ ps.foldl (fun m p =>
          modifyIdx (fun e => (e.1, e.2 ++ [p.2])) (nearestIdx p.2 source) m) m, p.2 ∈ e.2 := by
  intro ps
  induction ps with
  | nil => intro m _ p hp; simp at hp
  | cons q rest ih =>
    intro m hlen p hp
    simp only [List.foldl_cons]
    rcases List.mem_cons.mp hp with rfl | hr
    · apply nearestFold_mono
      apply modifyIdx_exists_mem
      rw [hlen]
      exact nearestIdx_lt p.2 source hs
    · exact ih _ ((modifyIdx_length _ _ m).trans hlen) p hr

lemma nearestFirstPass_map_fst (source target : List Int) :
    (nearestFirstPass source target).map Prod.fst = source := by
  simp only [nearestFirstPass, List.map_map]
  have : (Prod.fst ∘ fun s : Int => (s, [target.getD (nearestIdx s target) 0])) = id := rfl
  rw [this, List.map_id]

lemma nearestFirstPass_length (source target : List Int) :
    (nearestFirstPass source target).length = source.length := by
  simp [nearestFirstPass]

lemma nearest_completeness (source target : List Int) (hs : source ≠ []) (ht : target ≠ []) :
    ∀ x ∈ target, ∃ e ∈ NearestNoteMapping.map source target, x ∈ e.2 := by
  intro x hx
  have hsne : source.isEmpty = false := by
    cases source with
    | nil => exact absurd rfl hs
    | cons a l => rfl
  have htne : target.isEmpty = false := by
    cases target with
    | nil => exact absurd rfl ht
    | cons a l => rfl
  rw [NearestNoteMapping.map, hsne, htne]
  simp only [Bool.false_eq_true, Bool.or_self, if_false]
  rw [nearestSecondPass]
  obtain ⟨⟨i, hi⟩, hget⟩ := List.get_of_mem hx
  by_cases hmem : i ∈ nearestUsed source target
  · obtain ⟨sk, hsk, hski⟩ := List.mem_map.mp hmem
    apply nearestFold_mono
    refine ⟨(sk, [target.getD (nearestIdx sk target) 0]), List.mem_map_of_mem _ hsk, ?_⟩
    rw [hski, List.getD_eq_getElem target 0 hi]
    simp only [List.mem_singleton]
    rw [← hget]
    simp
  · have hpair : (i, x) ∈ target.enum := by
      rw [List.mk_mem_enum_iff_getElem?]
      rw [List.getElem?_eq_getElem hi]
      rw [← hget]
      simp
    have hfilt : (i, x) ∈ target.enum.filter
        (fun p => !((nearestUsed source target).contains p.1)) := by
      rw [List.mem_filter]
      refine ⟨hpair, ?_⟩
      simp only [Bool.not_eq_true']
      rw [← Bool.not_eq_true]
      intro hcon
      exact hmem (List.elem_iff.mp hcon)
    have := nearestFold_mem source hs _ (nearestFirstPass source target)
      (nearestFirstPass_length source target) (i, x) hfilt
    exact this

lemma nearest_keys (source target : List Int) (hs : source ≠ []) (ht : target ≠ []) :
    (NearestNoteMapping.map source target).map Prod.fst = source := by
  have hsne : source.isEmpty = false := by
    cases source with
    | nil => exact absurd rfl hs
    | cons a l => rfl
  have htne : target.isEmpty = false := by
    cases target with
    | nil => exact absurd rfl ht
    | cons a l => rfl
  rw [NearestNoteMapping.map, hsne, htne]
  simp only [Bool.false_eq_true, Bool.or_self, if_false]
  rw [nearestSecondPass]
  exact (nearestFold_map_fst source _ _).trans (nearestFirstPass_map_fst source target)

lemma randFirst_cons_nil (rng : Nat → Nat) (s : Int) (rest : List Int) (k : Nat) :
    randFirst rng (s :: rest) [] k =
      (((s, []) : Int × List Int) :: (randFirst rng rest [] k).1,
        (randFirst rng rest [] k).2) := rfl

lemma randFirst_cons_cons (rng : Nat → Nat) (s r0 : Int) (rest rrest : List Int) (k : Nat) :
    randFirst rng (s :: rest) (r0 :: rrest) k =
      ((s, [(r0 :: rrest).getD (rng k % (r0 :: rrest).length) 0]) ::
        (randFirst rng rest
          ((r0 :: rrest).eraseIdx (rng k % (r0 :: rrest).length)) (k + 1)).1,
        (randFirst rng rest
          ((r0 :: rrest).eraseIdx (rng k % (r0 :: rrest).length)) (k + 1)).2) := rfl

lemma randFirst_spec (rng : Nat → Nat) :
    ∀ (src remaining : List Int) (k : Nat),
      ((randFirst rng src remaining k).1.map Prod.fst = src) ∧
      ((allTargets (randFirst rng src remaining k).1 ++
        (randFirst rng src remaining k).2.1).Perm remaining) := by
  intro src
  induction src with
  | nil =>
    intro remaining k
    simp [randFirst, allTargets]
  | cons s rest ih =>
    intro remaining k
    cases remaining with
    | nil =>
      rw [randFirst_cons_nil]
      obtain ⟨ih1, ih2⟩ := ih [] k
      constructor
      · simpa using ih1
      · simpa [allTargets_cons] using ih2
    | cons r0 rrest =>
      rw [randFirst_cons_cons]
      have hlen : 0 < (r0 :: rrest).length := by simp
      have hlt : rng k % (r0 :: rrest).length < (r0 :: rrest).length := Nat.mod_lt _ hlen
      obtain ⟨ih1, ih2⟩ :=
        ih ((r0 :: rrest).eraseIdx (rng k % (r0 :: rrest).length)) (k + 1)
      constructor
      · simpa using ih1
      · simp only [allTargets_cons, List.singleton_append, List.cons_append]
        exact (ih2.cons ((r0 :: rrest).getD (rng k % (r0 :: rrest).length) 0)).trans
          (getD_cons_eraseIdx_perm (r0 :: rrest) (rng k % (r0 :: rrest).length) hlt)

lemma randDistribute_spec (rng : Nat → Nat) :
    ∀ (rem : List Int) (m : List (Int × List Int)) (k : Nat), 0 < m.length →
      ((randDistribute rng rem m k).map Prod.fst = m.map Prod.fst) ∧
      (allTargets (randDistribute rng rem m k)).Perm (allTargets m ++ rem) := by
  intro rem
  induction rem with
  | nil =>
    intro m k _
    simp [randDistribute]
  | cons t rest ih =>
    intro m k hm
    have hk : rng k % m.length < m.length := Nat.mod_lt _ hm
    rw [randDistribute]
    set m1 := modifyIdx (fun e => (e.1, e.2 ++ [t])) (rng k % m.length) m with hm1
    have hlen : m1.length = m.length := modifyIdx_length _ _ m
    obtain ⟨ih1, ih2⟩ := ih m1 (k + 1) (hlen ▸ hm)
    constructor
    · exact ih1.trans (modifyIdx_map_fst (fun e => (e.1, e.2 ++ [t])) (fun e => rfl) _ m)
    · refine ih2.trans ?_
      refine (((modifyIdx_allTargets_perm t _ m hk).append_right rest).trans ?_)
      exact List.perm_middle.symm

lemma random_spec (rng : Nat → Nat) (source target : List Int)
    (hs : source ≠ []) (ht : target ≠ []) :
    (RandomMapping.map rng source target).map Prod.fst = source ∧
    (allTargets (RandomMapping.map rng source target)).Perm target := by
  have hsne : source.isEmpty = false := by
    cases source with
    | nil => exact absurd rfl hs
    | cons a l => rfl
  have htne : target.isEmpty = false := by
    cases target with
    | nil => exact absurd rfl ht
    | cons a l => rfl
  rw [RandomMapping.map, hsne, htne]
  simp only [Bool.false_eq_true, Bool.or_self, if_false]
  obtain ⟨f1, f2⟩ := randFirst_spec rng source target 0
  have hmlen : 0 < (randFirst rng source target 0).1.length := by
    have h := congrArg List.length f1
    rw [List.length_map] at h
    rw [h]
    exact List.length_pos.mpr hs
  obtain ⟨d1, d2⟩ := randDistribute_spec rng
    (randFirst rng source target 0).2.1.reverse (randFirst rng source target 0).1
    (randFirst rng source target 0).2.2 hmlen
  refine ⟨d1.trans f1, ?_⟩
  refine d2.trans ?_
  refine (((randFirst rng source target 0).2.1.reverse_perm.append_left _).trans f2)

/-- C3 amended: for non-empty source and target, both strategies keep every
source pitch as a key; the random strategy assigns the targets exactly (the
concatenation of all target lists is a permutation of the target list, for
every possible RNG run); the nearest strategy assigns every target to at
least one entry (but may duplicate one across entries). -/
theorem C3_amended_mapping (source target : List Int)
    (hs : source ≠ []) (ht : target ≠ []) :
    ((NearestNoteMapping.map source target).map Prod.fst = source ∧
     ∀ x ∈ target, ∃ e ∈ NearestNoteMapping.map source target, x ∈ e.2) ∧
    (∀ rng : Nat → Nat,
      (RandomMapping.map rng source target).map Prod.fst = source ∧
      (allTargets (RandomMapping.map rng source target)).Perm target) :=
  ⟨⟨nearest_keys source target hs ht, nearest_completeness source target hs ht⟩,
   fun rng => random_spec rng source target hs ht⟩

theorem C3_amended_mapping_witness :
    (NearestNoteMapping.map [60, 61] [60, 100]).map Prod.fst = [60, 61] ∧
    (allTargets (RandomMapping.map (fun k => 2 * k + 1) [60, 61] [60, 100])).Perm
      [60, 100] :=
  ⟨((C3_amended_mapping [60, 61] [60, 100] (by decide) (by decide)).1).1,
   ((C3_amended_mapping [60, 61] [60, 100] (by decide) (by decide)).2
      (fun k => 2 * k + 1)).2⟩

lemma OutExt.rfl {o : List OutputEvent} : OutExt o o :=
  ⟨[], by simp, by simp⟩

lemma OutExt.trans {o1 o2 o3 : List OutputEvent}
    (h1 : OutExt o1 o2) (h2 : OutExt o2 o3) : OutExt o1 o3 := by
  obtain ⟨x1, hx1, he1⟩ := h1
  obtain ⟨x2, hx2, he2⟩ := h2
  refine ⟨x1 ++ x2, by rw [hx2, hx1, List.append_assoc], ?_⟩
  intro ev hev
  rcases List.mem_append.mp hev with h | h
  · exact he1 ev h
  · exact he2 ev h

lemma OutExt.noteOn {o : List OutputEvent} {ch p v sa : Int} :
    OutExt o (sendMidiNoteOn o ch p v sa) :=
  ⟨[⟨MidiMsg.noteOn ch p v, sa⟩], by rfl, by intro ev h; rw [List.mem_singleton.mp h]; rfl⟩

lemma OutExt.noteOff {o : List OutputEvent} {ch p sa : Int} :
    OutExt o (sendMidiNoteOff o ch p sa) :=
  ⟨[⟨MidiMsg.noteOff ch p, sa⟩], by rfl, by intro ev h; rw [List.mem_singleton.mp h]; rfl⟩

lemma OutExt.bend {o : List OutputEvent} {pbr semis : ℚ} {ch sa : Int} :
    OutExt o (sendMidiPitchBend o pbr ch semis sa) :=
  ⟨[⟨MidiMsg.pitchWheel ch (sendMidiPitchBendValue pbr semis), sa⟩], by rfl,
   by intro ev h; rw [List.mem_singleton.mp h]; rfl⟩

lemma stopMatchingVoices_outExt {pitch : Int} :
    ∀ (voices : List GlidingVoice) (alloc : List Bool) (out : List OutputEvent) (ls : Int),
      OutExt out (stopMatchingVoices pitch voices alloc out ls).2 := by
  intro voices
  induction voices with
  | nil => intro alloc out ls; exact OutExt.rfl
  | cons v rest ih =>
    intro alloc out ls
    rw [stopMatchingVoices]
    split
    · exact OutExt.noteOff.trans (ih _ _ _)
    · exact ih _ _ _

lemma handleNoteOff_outExt (st : EngineState) (out : List OutputEvent) (p ls : Int) :
    OutExt out (ChordTransitionEngine.handleNoteOff st out p ls).2 := by
  rcases hc : st.currentChord with _ | c
  · simp only [ChordTransitionEngine.handleNoteOff, hc]
    exact OutExt.rfl
  · simp only [ChordTransitionEngine.handleNoteOff, hc]
    split
    · exact stopMatchingVoices_outExt _ _ _ _
    · exact stopMatchingVoices_outExt _ _ _ _

lemma glideStep_outExt (bst : Int) (pbr : ℚ) (sample : Nat) (v1 : GlidingVoice)
    (out : List OutputEvent) : OutExt out (glideStep bst pbr sample v1 out) := by
  show OutExt out
    (if (v1.hasReachedTarget && !(v1.startPitch == v1.targetPitch)) = true then
      sendMidiPitchBend
        (sendMidiNoteOn
          (sendMidiNoteOff
            (if (v1.isGliding && sample % 8 == 0) = true then
              sendMidiPitchBend
                (if ((bst + (sample : Int)) == v1.startPitch && sample == 0) = true then
                  sendMidiNoteOn out v1.channel v1.startPitch 100 (sample : Int)
                else out) pbr v1.channel v1.currentPitchBend (sample : Int)
            else
              (if ((bst + (sample : Int)) == v1.startPitch && sample == 0) = true then
                sendMidiNoteOn out v1.channel v1.startPitch 100 (sample : Int)
              else out)) v1.channel v1.startPitch (sample : Int))
          v1.channel v1.targetPitch 100 (sample : Int)) pbr v1.channel 0 (sample : Int)
    else
      (if (v1.isGliding && sample % 8 == 0) = true then
        sendMidiPitchBend
          (if ((bst + (sample : Int)) == v1.startPitch && sample == 0) = true then
            sendMidiNoteOn out v1.channel v1.startPitch 100 (sample : Int)
          else out) pbr v1.channel v1.currentPitchBend (sample : Int)
      else
        (if ((bst + (sample : Int)) == v1.startPitch && sample == 0) = true then
          sendMidiNoteOn out v1.channel v1.startPitch 100 (sample : Int)
        else out)))
  split <;> split <;> split <;>
  · repeat
      first
      | exact OutExt.rfl
      | exact OutExt.noteOn
      | exact OutExt.bend
      | exact OutExt.noteOff
      | refine OutExt.trans ?_ OutExt.bend
      | refine OutExt.trans ?_ OutExt.noteOn
      | refine OutExt.trans ?_ OutExt.noteOff

lemma glideLoop_outExt (bst : Int) (pbr : ℚ) :
    ∀ (r sample : Nat) (v : GlidingVoice) (out : List OutputEvent),
      OutExt out (glideLoop bst pbr sample r v out).2 := by
  intro r
  induction r with
  | zero => intro sample v out; exact OutExt.rfl
  | succ r ih =>
    intro sample v out
    rw [glideLoop]
    exact (glideStep_outExt _ _ _ _ _).trans (ih _ _ _)

lemma processVoiceGlides_outExt (st : EngineState) (out : List OutputEvent)
    (bst : Int) (n : Nat) :
    OutExt out (ChordTransitionEngine.processVoiceGlides st out bst n).2 := by
  rw [ChordTransitionEngine.processVoiceGlides]
  have gen : ∀ (voices : List GlidingVoice) (acc : List GlidingVoice × List OutputEvent),
      OutExt acc.2 (voices.foldl
        (fun (acc : List GlidingVoice × List OutputEvent) v =>
          ((acc.1 ++ [(glideLoop bst st.pitchBendRange 0 n v acc.2).1],
            (glideLoop bst st.pitchBendRange 0 n v acc.2).2))) acc).2 := by
    intro voices
    induction voices with
    | nil => intro acc; exact OutExt.rfl
    | cons v rest ihv =>
      intro acc
      simp only [List.foldl_cons]
      exact (glideLoop_outExt bst st.pitchBendRange n 0 v acc.2).trans (ihv _)
  exact gen st.activeVoices ([], out)

lemma bufferIncomingMidi_filter (buffer : List BufferedMidiEvent)
    (input : List InputEvent) (bst : Int) :
    ChordTransitionEngine.bufferIncomingMidi buffer
      (input.filter (fun e => e.message.isNoteOn || e.message.isNoteOff)) bst =
    ChordTransitionEngine.bufferIncomingMidi buffer input bst := by
  unfold ChordTransitionEngine.bufferIncomingMidi
  congr 1
  induction input with
  | nil => rfl
  | cons e rest ih =>
    by_cases he : (e.message.isNoteOn || e.message.isNoteOff) = true
    · simp only [List.filter_cons, he, if_true, List.filterMap_cons, ih]
    · simp only [List.filter_cons, he, Bool.false_eq_true, if_false, List.filterMap_cons, ih]

lemma noteOffPhase_outExt (bst : Int) (blockSize : Nat) :
    ∀ (evs : List BufferedMidiEvent) (acc : EngineState × List OutputEvent),
      OutExt acc.2 (noteOffPhase bst blockSize evs acc).2 := by
  intro evs
  induction evs with
  | nil => intro acc; exact OutExt.rfl
  | cons e rest ih =>
    intro acc
    unfold noteOffPhase at ih ⊢
    simp only [List.foldl_cons]
    exact (handleNoteOff_outExt acc.1 acc.2 _ _).trans (ih _)

lemma processBufferedEvents_outExt (st : EngineState) (out : List OutputEvent)
    (bst : Int) (n : Nat) (strat : List Int → List Int → List (Int × List Int)) :
    OutExt out (ChordTransitionEngine.processBufferedEvents st out bst n strat).2 := by
  rw [ChordTransitionEngine.processBufferedEvents]
  exact (noteOffPhase_outExt bst n _ (st, out)).trans (processVoiceGlides_outExt _ _ _ _)

lemma processBlock_output_engine (st : EngineState) (input : List InputEvent)
    (n : Nat) (pbr : ℚ) (strat : List Int → List Int → List (Int × List Int)) :
    ∀ ev ∈ (ChordTransitionEngine.processBlock st input n pbr strat).2,
      isEngineEvent ev.message = true := by
  intro ev hev
  rw [ChordTransitionEngine.processBlock] at hev
  obtain ⟨extra, hx, hall⟩ := processBufferedEvents_outExt
    (({ st with pitchBendRange := pbr }).withBuffer
      (ChordTransitionEngine.bufferIncomingMidi st.midiBuffer input st.currentGlobalTime))
    [] st.currentGlobalTime n strat
  replace hev : ev ∈ (ChordTransitionEngine.processBufferedEvents
      (({ st with pitchBendRange := pbr }).withBuffer
        (ChordTransitionEngine.bufferIncomingMidi st.midiBuffer input st.currentGlobalTime))
      [] st.currentGlobalTime n strat).2 := hev
  rw [hx] at hev
  exact hall ev (by simpa using hev)

lemma processBlock_filter_input (st : EngineState) (input : List InputEvent)
    (n : Nat) (pbr : ℚ) (strat : List Int → List Int → List (Int × List Int)) :
    ChordTransitionEngine.processBlock st
      (input.filter (fun e => e.message.isNoteOn || e.message.isNoteOff)) n pbr strat =
    ChordTransitionEngine.processBlock st input n pbr strat := by
  rw [ChordTransitionEngine.processBlock, ChordTransitionEngine.processBlock,
    bufferIncomingMidi_filter]

lemma handleNoteOff_withBuffer (st : EngineState) (b : List BufferedMidiEvent)
    (out : List OutputEvent) (p ls : Int) :
    ChordTransitionEngine.handleNoteOff (st.withBuffer b) out p ls =
      ((ChordTransitionEngine.handleNoteOff st out p ls).1.withBuffer b,
       (ChordTransitionEngine.handleNoteOff st out p ls).2) := by
  obtain ⟨alloc, voices, buffer, cur, pend, la, t, pbr⟩ := st
  rcases cur with _ | c
  · rfl
  · simp only [ChordTransitionEngine.handleNoteOff, EngineState.withBuffer]
    split <;> rfl

lemma detectChordChange_withBuffer (st : EngineState) (b : List BufferedMidiEvent)
    (notes : List Note) :
    ChordTransitionEngine.detectChordChange (st.withBuffer b) notes =
      (ChordTransitionEngine.detectChordChange st notes).withBuffer b := by
  obtain ⟨alloc, voices, buffer, cur, pend, la, t, pbr⟩ := st
  rcases notes with _ | ⟨n0, rest⟩
  · rfl
  · rcases cur with _ | c <;> rfl

lemma startTransition_withBuffer (st : EngineState) (b : List BufferedMidiEvent)
    (strat : List Int → List Int → List (Int × List Int)) :
    ChordTransitionEngine.startTransition (st.withBuffer b) strat =
      (ChordTransitionEngine.startTransition st strat).withBuffer b := by
  obtain ⟨alloc, voices, buffer, cur, pend, la, t, pbr⟩ := st
  rcases cur with _ | c <;> rcases pend with _ | d <;> rfl

lemma processVoiceGlides_withBuffer (st : EngineState) (b : List BufferedMidiEvent)
    (out : List OutputEvent) (bst : Int) (n : Nat) :
    ChordTransitionEngine.processVoiceGlides (st.withBuffer b) out bst n =
      ((ChordTransitionEngine.processVoiceGlides st out bst n).1.withBuffer b,
       (ChordTransitionEngine.processVoiceGlides st out bst n).2) := by
  obtain ⟨alloc, voices, buffer, cur, pend, la, t, pbr⟩ := st
  rfl

lemma sortDedup_sorted (l : List Int) :
    List.Sorted (fun a b : Int => a ≤ b) (sortDedup l) :=
  List.Pairwise.sublist (List.dedup_sublist _)
    (List.sorted_insertionSort (fun a b : Int => a ≤ b) l)

lemma sortDedup_nodup (l : List Int) : (sortDedup l).Nodup :=
  List.nodup_dedup _

lemma sortDedup_mem (l : List Int) (a : Int) : a ∈ sortDedup l ↔ a ∈ l := by
  rw [sortDedup, List.mem_dedup]
  exact (List.perm_insertionSort (fun a b : Int => a ≤ b) l).mem_iff

lemma sorted_split (t0 : Int) :
    ∀ (l : List Int), List.Sorted (fun a b : Int => a ≤ b) l → (∀ a ∈ l, a ≠ t0) →
      l = l.filter (fun a => decide (a < t0)) ++ l.filter (fun a => !decide (a < t0)) := by
  intro l
  induction l with
  | nil => intro _ _; rfl
  | cons a r ih =>
    intro hs hne
    have hs' : List.Sorted (fun a b : Int => a ≤ b) r := hs.of_cons
    have hha := List.rel_of_sorted_cons hs
    by_cases hlt : a < t0
    · have := ih hs' (fun b hb => hne b (List.mem_cons_of_mem _ hb))
      simp only [List.filter_cons, hlt, decide_True, if_true, Bool.not_true,
        Bool.false_eq_true, if_false, List.cons_append]
      exact congrArg (a :: ·) this
    · have hge : t0 ≤ a := by
        rcases lt_or_le a t0 with h | h
        · exact absurd h hlt
        · exact h
      have hfr : r.filter (fun b => decide (b < t0)) = [] := by
        rw [List.filter_eq_nil]
        intro b hb
        have : a ≤ b := hha b hb
        simp only [decide_eq_true_eq]
        omega
      have hfr2 : r.filter (fun b => !decide (b < t0)) = r := by
        rw [List.filter_eq_self]
        intro b hb
        have : a ≤ b := hha b hb
        simp only [Bool.not_eq_true', decide_eq_false_iff_not]
        omega
      simp only [List.filter_cons, hlt, decide_False, Bool.false_eq_true, if_false,
        Bool.not_false, if_true, hfr, hfr2, List.nil_append]

lemma sortDedup_insert (l1 l2 : List Int) (t0 : Int) (h : t0 ∉ l1 ++ l2) :
    sortDedup (l1 ++ t0 :: l2) =
      (sortDedup (l1 ++ l2)).filter (fun a => decide (a < t0)) ++
        t0 :: (sortDedup (l1 ++ l2)).filter (fun a => !decide (a < t0)) := by
  have hLmem : ∀ a ∈ sortDedup (l1 ++ l2), a ≠ t0 := by
    intro a ha hat
    exact h (hat ▸ (sortDedup_mem _ a).mp ha)
  have hsplit := sorted_split t0 (sortDedup (l1 ++ l2)) (sortDedup_sorted _) hLmem
  set lo := (sortDedup (l1 ++ l2)).filter (fun a => decide (a < t0)) with hlo
  set hi := (sortDedup (l1 ++ l2)).filter (fun a => !decide (a < t0)) with hhi
  have hlomem : ∀ a ∈ lo, a < t0 := by
    intro a ha
    have := List.of_mem_filter ha
    simpa using this
  have hhimem : ∀ a ∈ hi, t0 ≤ a := by
    intro a ha
    have := List.of_mem_filter ha
    simp only [Bool.not_eq_true', decide_eq_false_iff_not] at this
    omega
  have hrs : List.Sorted (fun a b : Int => a ≤ b) (lo ++ t0 :: hi) := by
    rw [List.Sorted, List.pairwise_append]
    refine ⟨List.Pairwise.sublist (List.filter_sublist _) (sortDedup_sorted _), ?_, ?_⟩
    · rw [List.pairwise_cons]
      exact ⟨hhimem, List.Pairwise.sublist (List.filter_sublist _) (sortDedup_sorted _)⟩
    · intro a ha b hb
      rcases List.mem_cons.mp hb with rfl | hb'
      · exact le_of_lt (hlomem a ha)
      · exact le_of_lt (lt_of_lt_of_le (hlomem a ha) (hhimem b hb'))
  have hrn : (lo ++ t0 :: hi).Nodup := by
    rw [List.nodup_middle]
    refine List.Nodup.cons ?_ ?_
    · intro hmem
      rw [← hsplit] at hmem
      exact hLmem t0 hmem rfl
    · rw [← hsplit]
      exact sortDedup_nodup _
  have hperm : (sortDedup (l1 ++ t0 :: l2)).Perm (lo ++ t0 :: hi) := by
    rw [List.perm_ext_iff_of_nodup (sortDedup_nodup _) hrn]
    intro a
    rw [sortDedup_mem]
    constructor
    · intro ha
      rcases List.mem_append.mp ha with h1 | h1
      · have : a ∈ sortDedup (l1 ++ l2) := (sortDedup_mem _ a).mpr (List.mem_append_left _ h1)
        rw [hsplit] at this
        rcases List.mem_append.mp this with h2 | h2
        · exact List.mem_append_left _ h2
        · exact List.mem_append_right _ (List.mem_cons_of_mem _ h2)
      · rcases List.mem_cons.mp h1 with rfl | h2
        · exact List.mem_append_right _ (List.mem_cons_self _ _)
        · have : a ∈ sortDedup (l1 ++ l2) := (sortDedup_mem _ a).mpr (List.mem_append_right _ h2)
          rw [hsplit] at this
          rcases List.mem_append.mp this with h3 | h3
          · exact List.mem_append_left _ h3
          · exact List.mem_append_right _ (List.mem_cons_of_mem _ h3)
    · intro ha
      have hmem : a = t0 ∨ a ∈ sortDedup (l1 ++ l2) := by
        rcases List.mem_append.mp ha with h1 | h1
        · exact Or.inr (by rw [hsplit]; exact List.mem_append_left _ h1)
        · rcases List.mem_cons.mp h1 with rfl | h2
          · exact Or.inl rfl
          · exact Or.inr (by rw [hsplit]; exact List.mem_append_right _ h2)
      rcases hmem with rfl | h1
      · exact List.mem_append_right _ (List.mem_cons_self _ _)
      · have := (sortDedup_mem _ a).mp h1
        rcases List.mem_append.mp this with h2 | h2
        · exact List.mem_append_left _ h2
        · exact List.mem_append_right _ (List.mem_cons_of_mem _ h2)
  exact List.eq_of_perm_of_sorted hperm (sortDedup_sorted _) hrs

lemma withBuffer_self (st : EngineState) : st.withBuffer st.midiBuffer = st := by
  obtain ⟨alloc, voices, buffer, cur, pend, la, t, pbr⟩ := st
  rfl

lemma noteOffPhase_withBuffer (bst : Int) (n : Nat) :
    ∀ (evs : List BufferedMidiEvent) (S : EngineState) (b : List BufferedMidiEvent)
      (out : List OutputEvent),
      noteOffPhase bst n evs (S.withBuffer b, out) =
        ((noteOffPhase bst n evs (S, out)).1.withBuffer b,
         (noteOffPhase bst n evs (S, out)).2) := by
  intro evs
  induction evs with
  | nil => intro S b out; rfl
  | cons e rest ih =>
    intro S b out
    unfold noteOffPhase at ih ⊢
    simp only [List.foldl_cons]
    rw [handleNoteOff_withBuffer]
    exact ih _ _ _

lemma detectPhase_withBuffer (snapshot : List BufferedMidiEvent) (lkE : Int)
    (X : EngineState) (b : List BufferedMidiEvent) :
    detectPhase snapshot lkE (X.withBuffer b) = (detectPhase snapshot lkE X).withBuffer b := by
  unfold detectPhase
  generalize eligibleNoteOnTimes snapshot lkE = times
  induction times generalizing X with
  | nil => rfl
  | cons ts rest ih =>
    simp only [List.foldl_cons]
    split
    · rw [detectChordChange_withBuffer]
      exact ih _
    · exact ih _

lemma transitionPhase_withBuffer (strat : List Int → List Int → List (Int × List Int))
    (X : EngineState) (b : List BufferedMidiEvent) :
    transitionPhase strat (X.withBuffer b) = (transitionPhase strat X).withBuffer b := by
  obtain ⟨alloc, voices, buffer, cur, pend, la, t, pbr⟩ := X
  rcases cur with _ | c <;> rcases pend with _ | d
  · rfl
  · rfl
  · rfl
  · simp only [transitionPhase, EngineState.withBuffer]
    split
    · exact startTransition_withBuffer
        ⟨alloc, voices, buffer, some c, some d, la, t, pbr⟩ b strat
    · rfl

lemma prunePhase_withBuffer (bE : Int) (X : EngineState) (b : List BufferedMidiEvent) :
    prunePhase bE (X.withBuffer b) =
      X.withBuffer (b.filter (fun e => decide (bE ≤ e.globalTimestamp))) := by
  obtain ⟨alloc, voices, buffer, cur, pend, la, t, pbr⟩ := X
  rfl

/-- Normal form of processBufferedEvents on a state with an explicit buffer:
the engine phases act on the buffer-free state, the buffer is only read for
note-offs, chord groups, and pruning. -/
lemma processBufferedEvents_withBuffer (S : EngineState) (b : List BufferedMidiEvent)
    (out : List OutputEvent) (bst : Int) (n : Nat)
    (strat : List Int → List Int → List (Int × List Int)) :
    ChordTransitionEngine.processBufferedEvents (S.withBuffer b) out bst n strat =
      ((ChordTransitionEngine.processVoiceGlides
          (transitionPhase strat (detectPhase b (bst + (n : Int) + S.lookaheadSamples)
            (noteOffPhase bst n (eligibleNoteOffs b bst (bst + (n : Int))) (S, out)).1))
          (noteOffPhase bst n (eligibleNoteOffs b bst (bst + (n : Int))) (S, out)).2
          bst n).1.withBuffer
        (b.filter (fun e => decide (bst + (n : Int) ≤ e.globalTimestamp))),
       (ChordTransitionEngine.processVoiceGlides
          (transitionPhase strat (detectPhase b (bst + (n : Int) + S.lookaheadSamples)
            (noteOffPhase bst n (eligibleNoteOffs b bst (bst + (n : Int))) (S, out)).1))
          (noteOffPhase bst n (eligibleNoteOffs b bst (bst + (n : Int))) (S, out)).2
          bst n).2) := by
  rw [ChordTransitionEngine.processBufferedEvents]
  have hla : (S.withBuffer b).lookaheadSamples = S.lookaheadSamples := rfl
  have hmb : (S.withBuffer b).midiBuffer = b := rfl
  rw [hla, hmb, noteOffPhase_withBuffer, detectPhase_withBuffer, transitionPhase_withBuffer,
    processVoiceGlides_withBuffer, prunePhase_withBuffer]

lemma eligibleNoteOffs_lone (C1 C2 : List BufferedMidiEvent) (eb : BufferedMidiEvent)
    (hoff : eb.message.isNoteOff = false) (bst bE : Int) :
    eligibleNoteOffs (C1 ++ eb :: C2) bst bE = eligibleNoteOffs (C1 ++ C2) bst bE := by
  unfold eligibleNoteOffs
  rw [List.filter_append, List.filter_append, List.filter_cons]
  rw [if_neg]
  simp [hoff]

lemma pruneFilter_lone (C1 C2 : List BufferedMidiEvent) (eb : BufferedMidiEvent)
    (bE : Int) (ht : eb.globalTimestamp < bE) :
    (C1 ++ eb :: C2).filter (fun e => decide (bE ≤ e.globalTimestamp)) =
      (C1 ++ C2).filter (fun e => decide (bE ≤ e.globalTimestamp)) := by
  rw [List.filter_append, List.filter_append, List.filter_cons]
  rw [if_neg]
  simp only [decide_eq_true_eq]
  omega

lemma foldl_congr_fun {α β : Type} :
    ∀ (l : List α) (f g : β → α → β) (x : β),
      (∀ a ∈ l, ∀ s, f s a = g s a) → l.foldl f x = l.foldl g x := by
  intro l
  induction l with
  | nil => intro f g x _; rfl
  | cons a rest ih =>
    intro f g x h
    simp only [List.foldl_cons]
    rw [h a (List.mem_cons_self _ _) x]
    exact ih f g _ (fun a' ha' => h a' (List.mem_cons_of_mem _ ha'))

lemma noteOnGroup_append (b1 b2 : List BufferedMidiEvent) (lkE ts : Int) :
    noteOnGroup (b1 ++ b2) lkE ts = noteOnGroup b1 lkE ts ++ noteOnGroup b2 lkE ts :=
  List.filterMap_append _ _ _

lemma noteOnGroup_single_other (eb : BufferedMidiEvent) (lkE ts : Int)
    (h : ts ≠ eb.globalTimestamp) :
    noteOnGroup [eb] lkE ts = [] := by
  unfold noteOnGroup
  have hcond : ¬(eb.globalTimestamp < lkE ∧ eb.globalTimestamp = ts) := by
    rintro ⟨_, hts⟩
    exact h hts.symm
  rcases hm : eb.message with ⟨ch, p, vel⟩ | _ | _ | _
  · simp only [List.filterMap, hm, if_neg hcond]
  · simp [List.filterMap, hm]
  · simp [List.filterMap, hm]
  · simp [List.filterMap, hm]

lemma noteOnGroup_none_of_uniq (lkE t0 : Int) :
    ∀ (l : List BufferedMidiEvent),
      (∀ b ∈ l, b.message.isNoteOn = true → b.globalTimestamp ≠ t0) →
      noteOnGroup l lkE t0 = [] := by
  intro l hl
  unfold noteOnGroup
  rw [List.filterMap_eq_nil]
  intro b hb
  rcases hm : b.message with ⟨ch, p, vel⟩ | _ | _ | _
  · have := hl b hb (by rw [hm]; rfl)
    simp only [ite_eq_right_iff]
    intro hcond
    exact absurd hcond.2 this
  · rfl
  · rfl
  · rfl

lemma eligibleNoteOnTimes_eq (buffer : List BufferedMidiEvent) (lkE : Int) :
    eligibleNoteOnTimes buffer lkE = sortDedup (buffer.filterMap (tsOf lkE)) := rfl

lemma tsOf_mem (lkE : Int) (l : List BufferedMidiEvent) (x : Int)
    (hx : x ∈ l.filterMap (tsOf lkE)) :
    ∃ b ∈ l, b.message.isNoteOn = true ∧ b.globalTimestamp = x := by
  obtain ⟨b, hb, hfb⟩ := List.mem_filterMap.mp hx
  refine ⟨b, hb, ?_⟩
  unfold tsOf at hfb
  by_cases hc : (b.message.isNoteOn && decide (b.globalTimestamp < lkE)) = true
  · rw [if_pos hc] at hfb
    exact ⟨(Bool.and_eq_true_iff.mp hc).1, Option.some.inj hfb⟩
  · rw [if_neg hc] at hfb
    exact absurd hfb (by simp)

lemma filterMap_single_length_le {α β : Type} (g : α → Option β) (x : α) :
    (List.filterMap g [x]).length ≤ 1 := by
  rcases hg : g x with _ | y <;> simp [List.filterMap, hg]

lemma detectPhase_snapshot_lone (C1 C2 : List BufferedMidiEvent) (eb : BufferedMidiEvent)
    (lkE : Int) (ch p vel : Int) (hmsg : eb.message = MidiMsg.noteOn ch p vel)
    (helig : eb.globalTimestamp < lkE)
    (huniq : ∀ b ∈ C1 ++ C2, b.message.isNoteOn = true →
      b.globalTimestamp ≠ eb.globalTimestamp)
    (X : EngineState) :
    detectPhase (C1 ++ eb :: C2) lkE X = detectPhase (C1 ++ C2) lkE X := by
  have hfeb : tsOf lkE eb = some eb.globalTimestamp := by
    unfold tsOf
    rw [if_pos]
    rw [hmsg]
    simp [MidiMsg.isNoteOn, helig]
  have hlW : (C1 ++ eb :: C2).filterMap (tsOf lkE) =
      C1.filterMap (tsOf lkE) ++ eb.globalTimestamp :: C2.filterMap (tsOf lkE) := by
    rw [List.filterMap_append]
    congr 1
    exact List.filterMap_cons_some hfeb
  have ht0 : eb.globalTimestamp ∉ C1.filterMap (tsOf lkE) ++ C2.filterMap (tsOf lkE) := by
    intro hmem
    rcases List.mem_append.mp hmem with hm | hm
    · obtain ⟨b, hb, hbon, hbts⟩ := tsOf_mem lkE C1 _ hm
      exact huniq b (List.mem_append_left _ hb) hbon hbts
    · obtain ⟨b, hb, hbon, hbts⟩ := tsOf_mem lkE C2 _ hm
      exact huniq b (List.mem_append_right _ hb) hbon hbts
  have hsplitW := sortDedup_insert (C1.filterMap (tsOf lkE)) (C2.filterMap (tsOf lkE))
    eb.globalTimestamp ht0
  have hLmem : ∀ a ∈ sortDedup (C1.filterMap (tsOf lkE) ++ C2.filterMap (tsOf lkE)),
      a ≠ eb.globalTimestamp := by
    intro a ha hat
    exact ht0 (hat ▸ (sortDedup_mem _ a).mp ha)
  have hsplitWO := sorted_split eb.globalTimestamp
    (sortDedup (C1.filterMap (tsOf lkE) ++ C2.filterMap (tsOf lkE)))
    (sortDedup_sorted _) hLmem
  have hgroup_ne : ∀ ts, ts ≠ eb.globalTimestamp →
      noteOnGroup (C1 ++ eb :: C2) lkE ts = noteOnGroup (C1 ++ C2) lkE ts := by
    intro ts hts
    have hassoc : C1 ++ eb :: C2 = (C1 ++ [eb]) ++ C2 := by simp
    rw [hassoc, noteOnGroup_append, noteOnGroup_append, noteOnGroup_append,
      noteOnGroup_single_other eb lkE ts hts, List.append_nil]
  have hgroup_t0_len :
      (noteOnGroup (C1 ++ eb :: C2) lkE eb.globalTimestamp).length ≤ 1 := by
    have hassoc : C1 ++ eb :: C2 = (C1 ++ [eb]) ++ C2 := by simp
    rw [hassoc, noteOnGroup_append, noteOnGroup_append]
    rw [noteOnGroup_none_of_uniq lkE eb.globalTimestamp C1
      (fun b hb hon => huniq b (List.mem_append_left _ hb) hon)]
    rw [noteOnGroup_none_of_uniq lkE eb.globalTimestamp C2
      (fun b hb hon => huniq b (List.mem_append_right _ hb) hon)]
    rw [List.nil_append, List.append_nil]
    exact filterMap_single_length_le _ eb
  have heW : eligibleNoteOnTimes (C1 ++ eb :: C2) lkE =
      (sortDedup (C1.filterMap (tsOf lkE) ++ C2.filterMap (tsOf lkE))).filter
          (fun a => decide (a < eb.globalTimestamp)) ++
        eb.globalTimestamp ::
          (sortDedup (C1.filterMap (tsOf lkE) ++ C2.filterMap (tsOf lkE))).filter
            (fun a => !decide (a < eb.globalTimestamp)) := by
    rw [eligibleNoteOnTimes_eq, hlW]
    exact hsplitW
  have heWO : eligibleNoteOnTimes (C1 ++ C2) lkE =
      (sortDedup (C1.filterMap (tsOf lkE) ++ C2.filterMap (tsOf lkE))).filter
          (fun a => decide (a < eb.globalTimestamp)) ++
        (sortDedup (C1.filterMap (tsOf lkE) ++ C2.filterMap (tsOf lkE))).filter
          (fun a => !decide (a < eb.globalTimestamp)) := by
    rw [eligibleNoteOnTimes_eq, List.filterMap_append]
    exact hsplitWO
  unfold detectPhase
  rw [heW, heWO]
  rw [List.foldl_append, List.foldl_append, List.foldl_cons]
  have hlo : ∀ Y : EngineState,
      (((sortDedup (C1.filterMap (tsOf lkE) ++ C2.filterMap (tsOf lkE))).filter
          (fun a => decide (a < eb.globalTimestamp))).foldl
        (fun s ts =>
          if 2 ≤ (noteOnGroup (C1 ++ eb :: C2) lkE ts).length then
            ChordTransitionEngine.detectChordChange s (noteOnGroup (C1 ++ eb :: C2) lkE ts)
          else s) Y) =
      (((sortDedup (C1.filterMap (tsOf lkE) ++ C2.filterMap (tsOf lkE))).filter
          (fun a => decide (a < eb.globalTimestamp))).foldl
        (fun s ts =>
          if 2 ≤ (noteOnGroup (C1 ++ C2) lkE ts).length then
            ChordTransitionEngine.detectChordChange s (noteOnGroup (C1 ++ C2) lkE ts)
          else s) Y) := by
    intro Y
    apply foldl_congr_fun
    intro ts hts s
    have htne : ts ≠ eb.globalTimestamp := by
      have := List.of_mem_filter hts
      simp only [decide_eq_true_eq] at this
      omega
    rw [hgroup_ne ts htne]
  have hhi : ∀ Y : EngineState,
      (((sortDedup (C1.filterMap (tsOf lkE) ++ C2.filterMap (tsOf lkE))).filter
          (fun a => !decide (a < eb.globalTimestamp))).foldl
        (fun s ts =>
          if 2 ≤ (noteOnGroup (C1 ++ eb :: C2) lkE ts).length then
            ChordTransitionEngine.detectChordChange s (noteOnGroup (C1 ++ eb :: C2) lkE ts)
          else s) Y) =
      (((sortDedup (C1.filterMap (tsOf lkE) ++ C2.filterMap (tsOf lkE))).filter
          (fun a => !decide (a < eb.globalTimestamp))).foldl
        (fun s ts =>
          if 2 ≤ (noteOnGroup (C1 ++ C2) lkE ts).length then
            ChordTransitionEngine.detectChordChange s (noteOnGroup (C1 ++ C2) lkE ts)
          else s) Y) := by
    intro Y
    apply foldl_congr_fun
    intro ts hts s
    have htne : ts ≠ eb.globalTimestamp :=
      hLmem ts (List.mem_of_mem_filter hts)
    rw [hgroup_ne ts htne]
  rw [hlo]
  have hstep_t0 : ∀ Y : EngineState,
      (if 2 ≤ (noteOnGroup (C1 ++ eb :: C2) lkE eb.globalTimestamp).length then
        ChordTransitionEngine.detectChordChange Y
          (noteOnGroup (C1 ++ eb :: C2) lkE eb.globalTimestamp)
      else Y) = Y := by
    intro Y
    rw [if_neg]
    omega
  rw [hstep_t0]
  exact hhi _

lemma withBuffer_withBuffer (st : EngineState) (b c : List BufferedMidiEvent) :
    (st.withBuffer b).withBuffer c = st.withBuffer c := rfl

lemma processBufferedEvents_lone (S : EngineState) (out : List OutputEvent)
    (bst : Int) (n : Nat) (strat : List Int → List Int → List (Int × List Int))
    (C1 C2 : List BufferedMidiEvent) (eb : BufferedMidiEvent)
    (ch p vel : Int) (hmsg : eb.message = MidiMsg.noteOn ch p vel)
    (ht : eb.globalTimestamp < bst + (n : Int))
    (hlk : 0 ≤ S.lookaheadSamples)
    (huniq : ∀ b ∈ C1 ++ C2, b.message.isNoteOn = true →
      b.globalTimestamp ≠ eb.globalTimestamp) :
    ChordTransitionEngine.processBufferedEvents (S.withBuffer (C1 ++ eb :: C2)) out bst n strat =
      ChordTransitionEngine.processBufferedEvents (S.withBuffer (C1 ++ C2)) out bst n strat := by
  rw [processBufferedEvents_withBuffer, processBufferedEvents_withBuffer]
  have hoff : eb.message.isNoteOff = false := by rw [hmsg]; rfl
  have hoffs := eligibleNoteOffs_lone C1 C2 eb hoff bst (bst + (n : Int))
  have helig : eb.globalTimestamp < bst + (n : Int) + S.lookaheadSamples := by omega
  have hdet := detectPhase_snapshot_lone C1 C2 eb (bst + (n : Int) + S.lookaheadSamples)
    ch p vel hmsg helig huniq
  have hprune := pruneFilter_lone C1 C2 eb (bst + (n : Int)) ht
  rw [hoffs, hdet, hprune]

lemma fInMem (bst : Int) (l : List InputEvent) (b : BufferedMidiEvent)
    (hb : b ∈ l.filterMap (fun e =>
      if e.message.isNoteOn || e.message.isNoteOff then
        some (⟨e.message, bst + e.samplePosition⟩ : BufferedMidiEvent)
      else none)) :
    ∃ e' ∈ l, b.message = e'.message ∧ b.globalTimestamp = bst + e'.samplePosition := by
  obtain ⟨e', he', hfe⟩ := List.mem_filterMap.mp hb
  by_cases hc : (e'.message.isNoteOn || e'.message.isNoteOff) = true
  · rw [if_pos hc] at hfe
    have hh := Option.some.inj hfe
    subst hh
    exact ⟨e', he', rfl, rfl⟩
  · rw [if_neg hc] at hfe
    exact absurd hfe (by simp)

/-- A note-on sharing its exact timestamp with no other buffered or incoming
note-on is invisible: processing the block with it gives the same state and
the same output as processing the block without it. -/
lemma processBlock_lone_noteon (st : EngineState) (pre post : List InputEvent)
    (e : InputEvent) (n : Nat) (pbr : ℚ)
    (strat : List Int → List Int → List (Int × List Int))
    (ch p vel : Int) (hmsg : e.message = MidiMsg.noteOn ch p vel)
    (hsp : e.samplePosition < (n : Int))
    (hlk : 0 ≤ st.lookaheadSamples)
    (huniqIn : ∀ e' ∈ pre ++ post, e'.message.isNoteOn = true →
      e'.samplePosition ≠ e.samplePosition)
    (huniqBuf : ∀ b ∈ st.midiBuffer, b.message.isNoteOn = true →
      b.globalTimestamp ≠ st.currentGlobalTime + e.samplePosition) :
    ChordTransitionEngine.processBlock st (pre ++ e :: post) n pbr strat =
      ChordTransitionEngine.processBlock st (pre ++ post) n pbr strat := by
  rw [ChordTransitionEngine.processBlock, ChordTransitionEngine.processBlock]
  have hcond : (e.message.isNoteOn || e.message.isNoteOff) = true := by
    rw [hmsg]
    rfl
  have hfe : (if (e.message.isNoteOn || e.message.isNoteOff) = true then
      some (⟨e.message, st.currentGlobalTime + e.samplePosition⟩ : BufferedMidiEvent)
      else none) = some ⟨e.message, st.currentGlobalTime + e.samplePosition⟩ := if_pos hcond
  have hbW : ChordTransitionEngine.bufferIncomingMidi st.midiBuffer (pre ++ e :: post)
      st.currentGlobalTime =
      (st.midiBuffer ++ pre.filterMap (fun e' =>
        if e'.message.isNoteOn || e'.message.isNoteOff then
          some (⟨e'.message, st.currentGlobalTime + e'.samplePosition⟩ : BufferedMidiEvent)
        else none)) ++
        (⟨e.message, st.currentGlobalTime + e.samplePosition⟩ : BufferedMidiEvent) ::
          post.filterMap (fun e' =>
            if e'.message.isNoteOn || e'.message.isNoteOff then
              some (⟨e'.message, st.currentGlobalTime + e'.samplePosition⟩ : BufferedMidiEvent)
            else none) := by
    unfold ChordTransitionEngine.bufferIncomingMidi
    rw [List.filterMap_append]
    simp only [List.filterMap_cons, hfe]
    rw [List.append_assoc]
  have hbWO : ChordTransitionEngine.bufferIncomingMidi st.midiBuffer (pre ++ post)
      st.currentGlobalTime =
      (st.midiBuffer ++ pre.filterMap (fun e' =>
        if e'.message.isNoteOn || e'.message.isNoteOff then
          some (⟨e'.message, st.currentGlobalTime + e'.samplePosition⟩ : BufferedMidiEvent)
        else none)) ++
        post.filterMap (fun e' =>
          if e'.message.isNoteOn || e'.message.isNoteOff then
            some (⟨e'.message, st.currentGlobalTime + e'.samplePosition⟩ : BufferedMidiEvent)
          else none) := by
    unfold ChordTransitionEngine.bufferIncomingMidi
    rw [List.filterMap_append, List.append_assoc]
  rw [hbW, hbWO]
  congr 1
  apply processBufferedEvents_lone _ _ _ _ _ _ _ _ ch p vel hmsg
  · show st.currentGlobalTime + e.samplePosition < st.currentGlobalTime + (n : Int)
    omega
  · exact hlk
  · intro b hb hbon
    rcases List.mem_append.mp hb with hb1 | hb2
    · rcases List.mem_append.mp hb1 with hb3 | hb4
      · exact huniqBuf b hb3 hbon
      · obtain ⟨e', he', hbm, hbts⟩ := fInMem st.currentGlobalTime pre b hb4
        have hon : e'.message.isNoteOn = true := by rw [← hbm]; exact hbon
        have := huniqIn e' (List.mem_append_left _ he') hon
        rw [hbts]
        show st.currentGlobalTime + e'.samplePosition ≠
          st.currentGlobalTime + e.samplePosition
        intro hc
        exact this (by omega)
    · obtain ⟨e', he', hbm, hbts⟩ := fInMem st.currentGlobalTime post b hb2
      have hon : e'.message.isNoteOn = true := by rw [← hbm]; exact hbon
      have := huniqIn e' (List.mem_append_right _ he') hon
      rw [hbts]
      show st.currentGlobalTime + e'.samplePosition ≠
        st.currentGlobalTime + e.samplePosition
      intro hc
      exact this (by omega)

/-- C10: the output buffer that replaces the input holds only events the
engine generated.  (a) Input events that are not note-ons/note-offs are
discarded: filtering them away first changes nothing.  (b) Every output event
is a note-on, note-off or pitch-wheel message.  (c) A note-on whose exact
timestamp no other note-on shares (in this block's input or in the pending
buffer) creates no chord, no voice and no output: the block result is the
same as if the event had never arrived. -/
theorem C10_output_provenance (st : EngineState) (input : List InputEvent)
    (n : Nat) (pbr : ℚ) (strat : List Int → List Int → List (Int × List Int)) :
    (ChordTransitionEngine.processBlock st
        (input.filter (fun e => e.message.isNoteOn || e.message.isNoteOff)) n pbr strat =
      ChordTransitionEngine.processBlock st input n pbr strat) ∧
    (∀ ev ∈ (ChordTransitionEngine.processBlock st input n pbr strat).2,
      ev.message.isNoteOn = true ∨ ev.message.isNoteOff = true ∨
        ev.message.isPitchWheel = true) ∧
    (∀ (pre post : List InputEvent) (e : InputEvent) (ch p vel : Int),
      input = pre ++ e :: post → e.message = MidiMsg.noteOn ch p vel →
      e.samplePosition < (n : Int) → 0 ≤ st.lookaheadSamples →
      (∀ e' ∈ pre ++ post, e'.message.isNoteOn = true →
        e'.samplePosition ≠ e.samplePosition) →
      (∀ b ∈ st.midiBuffer, b.message.isNoteOn = true →
        b.globalTimestamp ≠ st.currentGlobalTime + e.samplePosition) →
      ChordTransitionEngine.processBlock st input n pbr strat =
        ChordTransitionEngine.processBlock st (pre ++ post) n pbr strat) := by
  refine ⟨processBlock_filter_input st input n pbr strat, ?_, ?_⟩
  · intro ev hev
    have h := processBlock_output_engine st input n pbr strat ev hev
    unfold isEngineEvent at h
    rcases Bool.or_eq_true_iff.mp h with h1 | h1
    · rcases Bool.or_eq_true_iff.mp h1 with h2 | h2
      · exact Or.inl h2
      · exact Or.inr (Or.inl h2)
    · exact Or.inr (Or.inr h1)
  · intro pre post e ch p vel hin hmsg hsp hlk h1 h2
    subst hin
    exact processBlock_lone_noteon st pre post e n pbr strat ch p vel hmsg hsp hlk h1 h2

theorem C10_output_provenance_witness :
    ChordTransitionEngine.processBlock (ChordTransitionEngine.initial 480)
      [⟨MidiMsg.other, 0⟩, ⟨MidiMsg.noteOn 1 60 100, 0⟩] 4 12 NearestNoteMapping.map =
    ChordTransitionEngine.processBlock (ChordTransitionEngine.initial 480)
      [⟨MidiMsg.other, 0⟩] 4 12 NearestNoteMapping.map :=
  (C10_output_provenance (ChordTransitionEngine.initial 480)
      [⟨MidiMsg.other, 0⟩, ⟨MidiMsg.noteOn 1 60 100, 0⟩] 4 12 NearestNoteMapping.map).2.2
    [⟨MidiMsg.other, 0⟩] [] ⟨MidiMsg.noteOn 1 60 100, 0⟩ 1 60 100
    rfl rfl (by decide) (by decide) (by decide) (by decide)
